import Mathlib

/-! # RunTournament: handicap calculator and season aggregator

A shallow embedding of `src/js/calculator.js` and `src/js/league.js`.

Modelling conventions.

* A JavaScript number (`JsNum`) is a rational, an infinity or `NaN`; the two
  zeros are identified.
* `Number(text)` rounds the value of the literal to the nearest binary64
  number, ties to even, overflowing to an infinity (`JsNum.toDouble`).
* league.js is modelled in binary64 arithmetic: every operation is the exact
  operation followed by `JsNum.toDouble` (namespace `Double`).
* calculator.js is modelled in exact arithmetic on finite values, the decimal
  constant `0.1` being the rational `1/10`, so that its results are the exact
  decimals of the specification (10.4, 62.6); infinities and `NaN` behave as
  in binary64.
* `null` is `Option.none`.
* Strings are processed as lists of characters.
* `Array.prototype.sort` is a stable insertion sort by the sign of the
  comparator, a `NaN` result counting as `+0`; `Map` is an insertion-ordered
  association list.
* A raised exception is the `error` case of `Except`.
-/

/-! ## JavaScript numbers -/

/-- A JavaScript number: a finite value, an infinity or `NaN`. -/
inductive JsNum where
  | num (q : ℚ)
  | posInf
  | negInf
  | nan
  deriving DecidableEq

namespace JsNum

/-- Unary minus. -/
def neg : JsNum → JsNum
  | num a => num (-a)
  | posInf => negInf
  | negInf => posInf
  | nan => nan

/-- The operator `+` on numbers. -/
def add : JsNum → JsNum → JsNum
  | num a, num b => num (a + b)
  | nan, _ => nan
  | _, nan => nan
  | posInf, negInf => nan
  | negInf, posInf => nan
  | posInf, _ => posInf
  | _, posInf => posInf
  | negInf, _ => negInf
  | _, negInf => negInf

/-- The operator `-` on numbers. -/
def sub : JsNum → JsNum → JsNum
  | num a, num b => num (a - b)
  | a, b => add a (neg b)

/-- The product of an infinity, positive or negative, with a finite value. -/
def infTimes (positive : Bool) (a : ℚ) : JsNum :=
  if a = 0 then nan
  else if decide (0 < a) = positive then posInf
  else negInf

/-- The operator `*` on numbers. -/
def mul : JsNum → JsNum → JsNum
  | num a, num b => num (a * b)
  | nan, _ => nan
  | _, nan => nan
  | num a, posInf => infTimes true a
  | posInf, num a => infTimes true a
  | num a, negInf => infTimes false a
  | negInf, num a => infTimes false a
  | posInf, posInf => posInf
  | negInf, negInf => posInf
  | posInf, negInf => negInf
  | negInf, posInf => negInf

/-- The operator `/` on numbers.  A zero divisor counts as `+0`; no divisor
in the program is zero. -/
def div : JsNum → JsNum → JsNum
  | num a, num b =>
    if b = 0 then (if a = 0 then nan else if 0 < a then posInf else negInf)
    else num (a / b)
  | nan, _ => nan
  | _, nan => nan
  | num _, _ => num 0
  | posInf, num b => if 0 ≤ b then posInf else negInf
  | negInf, num b => if 0 ≤ b then negInf else posInf
  | _, _ => nan

instance : Add JsNum := ⟨add⟩
instance : Sub JsNum := ⟨sub⟩
instance : Mul JsNum := ⟨mul⟩
instance : Div JsNum := ⟨div⟩

/-- The operator `<` on numbers: false when either side is `NaN`. -/
def lt : JsNum → JsNum → Bool
  | num a, num b => decide (a < b)
  | nan, _ => false
  | _, nan => false
  | _, negInf => false
  | negInf, _ => true
  | posInf, _ => false
  | _, posInf => true

/-- `Number.isNaN`. -/
def isNaN : JsNum → Bool
  | nan => true
  | _ => false

/-- `Math.round`: the nearest integer, a tie going towards plus infinity. -/
def mathRound : JsNum → JsNum
  | num a => num (⌊a + 1 / 2⌋ : ℤ)
  | x => x

/-- `Math.min` of two arguments. -/
def mathMin : JsNum → JsNum → JsNum
  | num a, num b => num (min a b)
  | nan, _ => nan
  | _, nan => nan
  | negInf, _ => negInf
  | _, negInf => negInf
  | posInf, x => x
  | x, posInf => x

/-- `Math.max` of two arguments. -/
def mathMax : JsNum → JsNum → JsNum
  | num a, num b => num (max a b)
  | nan, _ => nan
  | _, nan => nan
  | posInf, _ => posInf
  | _, posInf => posInf
  | negInf, x => x
  | x, negInf => x

/-! ### Rounding to binary64 -/

/-- The quotient `n / d` rounded to the nearest natural number, ties to
even. -/
def roundHalfEven (n d : ℕ) : ℕ :=
  let q := n / d
  let r := n % d
  if 2 * r < d then q
  else if d < 2 * r then q + 1
  else if q % 2 = 0 then q
  else q + 1

/-- The floor of the binary logarithm of `n`, by halving at most `fuel`
times. -/
def log2Fuel : ℕ → ℕ → ℕ
  | 0, _ => 0
  | fuel + 1, n => if n < 2 then 0 else log2Fuel fuel (n / 2) + 1

/-- The floor of the binary logarithm of `n / d`, for `n` and `d` positive. -/
def floorLog2 (n d : ℕ) : ℤ :=
  let k : ℤ := (log2Fuel n n : ℤ) - (log2Fuel d d : ℤ)
  let below : Bool :=
    if 0 ≤ k then decide (n < d * 2 ^ k.toNat)
    else decide (n * 2 ^ (-k).toNat < d)
  if below then k - 1 else k

/-- The binary64 number nearest to `n / d`, for `n` and `d` positive: the
exponent is at least -1022 (subnormal numbers), the significand has 53 bits
and is rounded ties to even, and a result of `2 ^ 1024` or more is
`Infinity`. -/
def roundPos (n d : ℕ) : JsNum :=
  let e := max (floorLog2 n d) (-1022)
  if 1023 < e then posInf
  else
    let s := e - 52
    let m :=
      if 0 ≤ s then roundHalfEven n (d * 2 ^ s.toNat)
      else roundHalfEven (n * 2 ^ (-s).toNat) d
    if e = 1023 ∧ 2 ^ 53 ≤ m then posInf
    else if 0 ≤ s then num ((m * 2 ^ s.toNat : ℕ) : ℚ)
    else num ((m : ℚ) / ((2 ^ (-s).toNat : ℕ) : ℚ))

/-- The binary64 number nearest to a number. -/
def toDouble : JsNum → JsNum
  | num q =>
    if q = 0 then num 0
    else if 0 < q then roundPos q.num.natAbs q.den
    else neg (roundPos q.num.natAbs q.den)
  | x => x

end JsNum

/-- Binary64 addition: the exact sum, rounded. -/
def Double.add (a b : JsNum) : JsNum := (a + b).toDouble

/-- Binary64 subtraction. -/
def Double.sub (a b : JsNum) : JsNum := (a - b).toDouble

/-- Binary64 multiplication. -/
def Double.mul (a b : JsNum) : JsNum := (a * b).toDouble

/-- Binary64 division. -/
def Double.div (a b : JsNum) : JsNum := (a / b).toDouble

/-! ## Strings -/

/-- JavaScript white space and line terminators, as stripped by `trim` and by
`Number`. -/
def isWhiteSpace (c : Char) : Bool :=
  let n := c.toNat
  n = 9 || n = 10 || n = 11 || n = 12 || n = 13 || n = 32 || n = 160 ||
  n = 5760 || (8192 ≤ n && n ≤ 8202) || n = 8232 || n = 8233 || n = 8239 ||
  n = 8287 || n = 12288 || n = 65279

/-- `String.prototype.trim` on a list of characters. -/
def trimChars (s : List Char) : List Char :=
  ((s.dropWhile isWhiteSpace).reverse.dropWhile isWhiteSpace).reverse

/-- `String.prototype.split` with a one-character separator. -/
def splitChars (sep : Char) : List Char → List (List Char)
  | [] => [[]]
  | c :: cs =>
    if c = sep then [] :: splitChars sep cs
    else
      match splitChars sep cs with
      | [] => [[c]]
      | p :: ps => (c :: p) :: ps

/-- The regular expression class `\d`. -/
def isDigit (c : Char) : Bool :=
  48 ≤ c.toNat && c.toNat ≤ 57

/-- Value of a hexadecimal digit, if it is one. -/
def hexDigitVal (c : Char) : Option Nat :=
  let n := c.toNat
  if 48 ≤ n ∧ n ≤ 57 then some (n - 48)
  else if 97 ≤ n ∧ n ≤ 102 then some (n - 87)
  else if 65 ≤ n ∧ n ≤ 70 then some (n - 55)
  else none

/-- Value of a non-empty run of digits in the given radix. -/
def radixVal (radix : Nat) (s : List Char) : Option Nat :=
  if s.isEmpty then none
  else
    s.foldl
      (fun acc c =>
        match acc, hexDigitVal c with
        | some a, some d => if d < radix then some (a * radix + d) else none
        | _, _ => none)
      (some 0)

/-- The exponent part of a decimal literal: empty, or `e`/`E`, an optional sign
and digits. -/
def exponentVal : List Char → Option ℤ
  | [] => some 0
  | c :: rest =>
    if c = 'e' ∨ c = 'E' then
      match rest with
      | '+' :: ds => (radixVal 10 ds).map Int.ofNat
      | '-' :: ds => (radixVal 10 ds).map (fun n => - Int.ofNat n)
      | ds => (radixVal 10 ds).map Int.ofNat
    else none

/-- The exact value of an unsigned decimal literal `digits[.digits][exp]` or
`.digits[exp]`. -/
def unsignedDecimalVal (s : List Char) : Option ℚ :=
  let ip := s.takeWhile isDigit
  let r1 := s.dropWhile isDigit
  let fp := match r1 with
    | '.' :: t => t.takeWhile isDigit
    | _ => []
  let r2 := match r1 with
    | '.' :: t => t.dropWhile isDigit
    | _ => r1
  if ip.isEmpty ∧ fp.isEmpty then none
  else
    match exponentVal r2 with
    | none => none
    | some e =>
      let digits := (radixVal 10 (ip ++ fp)).getD 0
      some (((digits * 10 ^ e.toNat : ℕ) : ℚ) / ((10 ^ (fp.length + (-e).toNat) : ℕ) : ℚ))

/-- The value of an unsigned `StrDecimalLiteral`: `Infinity` or a decimal
literal rounded to binary64; anything else is `NaN`. -/
def strDecimalVal (s : List Char) : JsNum :=
  if s = ['I', 'n', 'f', 'i', 'n', 'i', 't', 'y'] then JsNum.posInf
  else
    match unsignedDecimalVal s with
    | some q => (JsNum.num q).toDouble
    | none => JsNum.nan

/-- The numeric value of a trimmed string: empty is 0, then binary, octal and
hexadecimal integers and signed decimal literals; anything else is `NaN`. -/
def strNumericVal : List Char → JsNum
  | [] => JsNum.num 0
  | '0' :: 'x' :: ds | '0' :: 'X' :: ds =>
    match radixVal 16 ds with
    | some n => (JsNum.num n).toDouble
    | none => JsNum.nan
  | '0' :: 'o' :: ds | '0' :: 'O' :: ds =>
    match radixVal 8 ds with
    | some n => (JsNum.num n).toDouble
    | none => JsNum.nan
  | '0' :: 'b' :: ds | '0' :: 'B' :: ds =>
    match radixVal 2 ds with
    | some n => (JsNum.num n).toDouble
    | none => JsNum.nan
  | '+' :: ds => strDecimalVal ds
  | '-' :: ds => (strDecimalVal ds).neg
  | ds => strDecimalVal ds

/-- `Number(text)` for a string argument. -/
def toNumber (text : List Char) : JsNum :=
  strNumericVal (trimChars text)

/-! ## calculator.js -/

namespace Calculator

/-- The test `/^\d{1,2}:\d{2}$/` on an already trimmed string. -/
def matchesTimePattern : List Char → Bool
  | [m1, ':', s1, s2] => isDigit m1 && isDigit s1 && isDigit s2
  | [m1, m2, ':', s1, s2] => isDigit m1 && isDigit m2 && isDigit s1 && isDigit s2
  | _ => false

/-- `parseTimeToSeconds` of calculator.js; `none` is `null`. -/
def parseTimeToSeconds (timeText : String) : Option JsNum :=
  if !matchesTimePattern (trimChars timeText.data) then none
  else
    match (splitChars ':' timeText.data).map toNumber with
    | mm :: ss :: _ =>
      if mm.isNaN || ss.isNaN then none
      else some (mm * JsNum.num 60 + ss)
    | _ => none

/-- `pdFromTime`: pace against the 20:00 baseline, rounded to one decimal. -/
def pdFromTime (timeSeconds : JsNum) : JsNum :=
  let baselineSeconds := JsNum.num (20 * 60)
  let delta := timeSeconds - baselineSeconds
  JsNum.mathRound ((delta / JsNum.num 5) * JsNum.num 10) / JsNum.num 10

/-- `hiFromPDs`: the mean of the list, 0 for an empty list. -/
def hiFromPDs (pds : List JsNum) : JsNum :=
  if pds.length = 0 then JsNum.num 0
  else
    let sum := pds.foldl (fun acc pd => acc + pd) (JsNum.num 0)
    sum / JsNum.num pds.length

/-- `exceptionalCutIfAny`. -/
def exceptionalCutIfAny (pdToday hiFrozen : JsNum) : JsNum :=
  if JsNum.lt pdToday hiFrozen then (hiFrozen - pdToday) * JsNum.num (1 / 10)
  else JsNum.num 0

/-- `round10`. -/
def round10 (value : JsNum) : JsNum :=
  JsNum.mathRound (value / JsNum.num 10) * JsNum.num 10

/-- `applyCaps`; `lowHI = none` is `null`. -/
def applyCaps (hiPrev hiRaw : JsNum) (lowHI : Option JsNum) : JsNum :=
  let minHi := match lowHI with
    | some low => JsNum.mathMin low hiPrev
    | none => hiPrev
  let capped := JsNum.mathMax (JsNum.num 0) (JsNum.mathMin hiRaw (minHi + JsNum.num 30))
  capped

/-- The values of the four form fields read by the submit handler. -/
structure FormFields where
  oldHi : String
  lowHi : String
  today : String
  pds : String

/-- The three messages of `renderError`, in the order of the handler's
checks: old HI, time, PD entries. -/
inductive CalcError where
  | invalidOldHi
  | invalidTime
  | invalidPdEntry
  deriving DecidableEq

/-- The constants bound by the handler once validation has passed. -/
structure CalcTrace where
  pdToday : JsNum
  hiRawBase : JsNum
  bonus : JsNum
  hiRaw : JsNum
  hiNew : JsNum
  hiPrev : JsNum
  deriving DecidableEq

/-- The `pdList` chain: split on commas, trim, drop blanks, convert, drop
`NaN`. -/
def parsePdList (pds : String) : List JsNum :=
  ((((splitChars ',' pds.data).map trimChars).filter (fun pd => !pd.isEmpty)).map
    toNumber).filter (fun pd => !pd.isNaN)

/-- Lines 89 to 93 of the handler. -/
def pipeline (oldHi lowHi todayTimeSeconds : JsNum) (pdList : List JsNum) : CalcTrace :=
  let pdToday := pdFromTime todayTimeSeconds
  let hiRawBase := hiFromPDs (pdList ++ [pdToday])
  let bonus := exceptionalCutIfAny pdToday oldHi
  let hiRaw := round10 (hiRawBase - bonus)
  let hiNew := applyCaps oldHi hiRaw (some lowHi)
  { pdToday := pdToday, hiRawBase := hiRawBase, bonus := bonus, hiRaw := hiRaw,
    hiNew := hiNew, hiPrev := oldHi }

/-- The submit handler: either one of the three error messages or the trace
whose `pdToday`, `hiNew` and `hiPrev` are rendered. -/
def submit (f : FormFields) : Except CalcError CalcTrace :=
  let oldHi := toNumber f.oldHi.data
  let lowHi := if !f.lowHi.data.isEmpty then toNumber f.lowHi.data else oldHi
  let todayTimeSeconds := parseTimeToSeconds f.today
  let pdList := parsePdList f.pds
  if oldHi.isNaN then .error .invalidOldHi
  else
    match todayTimeSeconds with
    | none => .error .invalidTime
    | some secs =>
      if decide (pdList.length > 0) && pdList.any (fun pd => pd.isNaN) then
        .error .invalidPdEntry
      else .ok (pipeline oldHi lowHi secs pdList)

end Calculator


/-! ## Library models used by league.js -/

deriving instance DecidableEq for Except

/-- `Array.prototype.sort(cmp)`: a stable sort that places `a` before `b`
when `cmp a b ≤ 0`. -/
def arraySort {α β : Type} [Zero β] [LE β] [DecidableRel (fun (x y : β) => x ≤ y)]
    (cmp : α → α → β) (l : List α) : List α :=
  l.insertionSort (fun a b => cmp a b ≤ 0)

/-- The number that `Array.prototype.sort` reads from the result of a
comparator: a `NaN` result counts as `+0`, and only the sign matters. -/
def sortValue : JsNum → ℤ
  | JsNum.num q => if q < 0 then -1 else if 0 < q then 1 else 0
  | JsNum.posInf => 1
  | JsNum.negInf => -1
  | JsNum.nan => 0

/-- `Array.prototype.forEach`/`map` with the callback receiving the element
and its index, the first index being `index`. -/
def mapWithIndex {α β : Type} (f : α → Nat → β) : List α → Nat → List β
  | [], _ => []
  | a :: l, index => f a index :: mapWithIndex f l (index + 1)

/-- `Map.prototype.set` on an insertion-ordered association list: an existing
key keeps its place, a new key goes last. -/
def mapSet {κ ν : Type} [DecidableEq κ] : List (κ × ν) → κ → ν → List (κ × ν)
  | [], k, v => [(k, v)]
  | (k0, v0) :: m, k, v =>
    if k0 = k then (k, v) :: m else (k0, v0) :: mapSet m k v

/-- `Map.prototype.get`; `none` is `undefined`. -/
def mapGet {κ ν : Type} [DecidableEq κ] : List (κ × ν) → κ → Option ν
  | [], _ => none
  | (k0, v0) :: m, k => if k0 = k then some v0 else mapGet m k

/-- `Map.prototype.has`. -/
def mapHas {κ ν : Type} [DecidableEq κ] (m : List (κ × ν)) (k : κ) : Bool :=
  (mapGet m k).isSome

/-- `new Map(entries)`: the entries are set one after the other. -/
def mapOfEntries {κ ν : Type} [DecidableEq κ] (entries : List (κ × ν)) : List (κ × ν) :=
  entries.foldl (fun m e => mapSet m e.1 e.2) []

/-- `Array.prototype.map` with a callback that may raise: the first exception
aborts the whole map. -/
def mapRaising {α β ε : Type} (f : α → Except ε β) : List α → Except ε (List β)
  | [] => .ok []
  | a :: l =>
    match f a with
    | .error e => .error e
    | .ok b =>
      match mapRaising f l with
      | .error e => .error e
      | .ok bs => .ok (b :: bs)

/-! ## league.js -/

namespace League

/-- An exception raised while `computeSeason` runs. -/
inductive JsError where
  /-- `ReferenceError: <name> is not defined`. -/
  | referenceError (name : String)
  deriving DecidableEq

/-- A roster entry `{id, name, hi}`. -/
structure Player where
  id : String
  name : String
  hi : JsNum
  deriving DecidableEq

/-- A result `{playerId, time}`. -/
structure Result where
  playerId : String
  time : String
  deriving DecidableEq

/-- A week `{week, date, results}`; `week = none` is a missing week number and
`results = none` is a `results` value that is not an array. -/
structure Week where
  week : Option Nat
  date : String
  results : Option (List Result)
  deriving DecidableEq

/-- The season document; `none` is a value that is not an array. -/
structure Season where
  players : Option (List Player)
  weeks : Option (List Week)
  deriving DecidableEq

/-- A row as built by the first `map` over a week's results. -/
structure RawRow where
  playerId : String
  runner : String
  time : String
  hiFrozen : JsNum
  net : Option JsNum
  deriving DecidableEq

/-- A row after the `forEach` that adds `position` and `points` (the display
strings `netText` and `hiDisplay` are not modelled). -/
structure Row where
  playerId : String
  runner : String
  time : String
  hiFrozen : JsNum
  net : Option JsNum
  position : ℤ
  points : ℤ
  deriving DecidableEq

/-- A computed week. -/
structure WeekComputed where
  id : String
  weekNumber : Option Nat
  date : String
  rows : List Row
  deriving DecidableEq

/-- An entry of the standings before its position is added. -/
structure RawEntry where
  playerId : String
  runner : String
  points : ℤ
  hi : JsNum
  deriving DecidableEq

/-- An entry of the standings. -/
structure StandingsEntry where
  position : ℤ
  playerId : String
  runner : String
  points : ℤ
  hi : JsNum
  deriving DecidableEq

/-- The value returned by `computeSeason`. -/
structure SeasonComputed where
  weeks : List WeekComputed
  standings : List StandingsEntry
  deriving DecidableEq

/-- `parseTimeToSeconds` of league.js; `none` is `null`. -/
def parseTimeToSeconds (time : String) : Option JsNum :=
  if time.data.isEmpty then none
  else
    let parts := splitChars ':' time.data
    if parts.length ≠ 2 then none
    else
      match parts.map toNumber with
      | [minutes, seconds] =>
        if minutes.isNaN || seconds.isNaN then none
        else some (Double.add (Double.mul minutes (JsNum.num 60)) seconds)
      | _ => none

/-- `computeNetSecondsPerKm`. -/
def computeNetSecondsPerKm (time : String) (handicap : JsNum) : Option JsNum :=
  match parseTimeToSeconds time with
  | none => none
  | some totalSeconds =>
    let pace := Double.div totalSeconds (JsNum.num 5)
    some (Double.sub pace handicap)

/-- `pointsForPosition`. -/
def pointsForPosition (position : ℤ) : ℤ :=
  max 0 (10 - (position - 1) * 2)

/-- The comparator of the weekly sort. -/
def compareRows (a b : RawRow) : JsNum :=
  match a.net, b.net with
  | none, none => JsNum.num 0
  | none, some _ => JsNum.num 1
  | some _, none => JsNum.num (-1)
  | some x, some y => Double.sub x y

/-- The comparator of the standings sort. -/
def compareEntries (localeCompare : String → String → ℤ) (a b : RawEntry) : ℤ :=
  if b.points = a.points then localeCompare a.runner b.runner
  else b.points - a.points

/-- The `playerMap` of `computeSeason`. -/
def playerMapOf (players : List Player) : List (String × Player) :=
  mapOfEntries (players.map (fun player => (player.id, player)))

/-- The row built for one result (lines 56 to 67). -/
def rowOfResult (playerMap : List (String × Player)) (result : Result) : RawRow :=
  let player := mapGet playerMap result.playerId
  let hiFrozen := (player.map (fun p => p.hi)).getD (JsNum.num 0)
  let net := computeNetSecondsPerKm result.time hiFrozen
  { playerId := result.playerId,
    runner := (player.map (fun p => p.name)).getD "Unknown runner",
    time := result.time,
    hiFrozen := hiFrozen,
    net := net }

/-- The body of the `forEach` over the sorted rows (lines 78 to 83). -/
def rankRow (row : RawRow) (index : Nat) : Row :=
  let position : ℤ := (index : ℤ) + 1
  { playerId := row.playerId, runner := row.runner, time := row.time,
    hiFrozen := row.hiFrozen, net := row.net,
    position := position, points := pointsForPosition position }

/-- The rows of a computed week (lines 56 to 83).  The shallow copy
`rows.map((row) => ({ ...row }))` is the identity on values. -/
def weekRows (playerMap : List (String × Player)) (week : Week) : List Row :=
  let rows := (week.results.getD []).map (rowOfResult playerMap)
  let sortedRows := arraySort (fun a b => sortValue (compareRows a b)) rows
  mapWithIndex rankRow sortedRows 0

/-- The callback of the `map` over the weeks (lines 55 to 91).  Its only
parameter is `week`; the name `index` in `String(week.week ?? index)` is bound
neither in the callback nor at top level, so evaluating it raises a
`ReferenceError`.  It is evaluated only when `week.week` is missing. -/
def computeWeek (playerMap : List (String × Player)) (week : Week) :
    Except JsError WeekComputed :=
  let sortedRows := weekRows playerMap week
  match week.week with
  | some n =>
    .ok { id := toString n, weekNumber := week.week, date := week.date, rows := sortedRows }
  | none => .error (.referenceError "index")

/-- One step of the accumulation of the totals (lines 95 to 100). -/
def addRow (totals : List (String × ℤ)) (row : Row) : List (String × ℤ) :=
  let totals1 := if !mapHas totals row.playerId then mapSet totals row.playerId 0 else totals
  mapSet totals1 row.playerId ((mapGet totals1 row.playerId).getD 0 + row.points)

/-- The totals map after all weeks (lines 93 to 101). -/
def totalsOf (players : List Player) (weeks : List WeekComputed) : List (String × ℤ) :=
  weeks.foldl (fun totals week => week.rows.foldl addRow totals)
    (mapOfEntries (players.map (fun player => (player.id, (0 : ℤ)))))

/-- The first `map` of the standings chain (lines 104 to 112). -/
def entryOf (playerMap : List (String × Player)) (e : String × ℤ) : RawEntry :=
  let name := ((mapGet playerMap e.1).map (fun p => p.name)).getD "Unknown runner"
  let hi := ((mapGet playerMap e.1).map (fun p => p.hi)).getD (JsNum.num 0)
  { playerId := e.1, runner := name, points := e.2, hi := hi }

/-- The last `map` of the standings chain (lines 119 to 122). -/
def placeEntry (entry : RawEntry) (index : Nat) : StandingsEntry :=
  { position := (index : ℤ) + 1, playerId := entry.playerId, runner := entry.runner,
    points := entry.points, hi := entry.hi }

/-- The standings (lines 103 to 122). -/
def standingsOf (localeCompare : String → String → ℤ) (playerMap : List (String × Player))
    (totals : List (String × ℤ)) : List StandingsEntry :=
  mapWithIndex placeEntry
    (arraySort (compareEntries localeCompare) (totals.map (entryOf playerMap))) 0

/-- `computeSeason`.  `localeCompare` is the host's
`String.prototype.localeCompare`. -/
def computeSeason (localeCompare : String → String → ℤ) (season : Season) :
    Except JsError SeasonComputed :=
  let players := season.players.getD []
  let playerMap := playerMapOf players
  match mapRaising (computeWeek playerMap) (season.weeks.getD []) with
  | .error e => .error e
  | .ok weeks =>
    let totals := totalsOf players weeks
    let standings := standingsOf localeCompare playerMap totals
    .ok { weeks := weeks, standings := standings }

/-- A comparison by code units, one possible `localeCompare`. -/
def codeUnitCompare (a b : String) : ℤ :=
  if a < b then -1 else if a = b then 0 else 1

end League


/-! ## Definitions used to state the properties -/

/-- The upper bound of the specification for `applyCaps`:
`min(lowHi ?? oldHi, oldHi) + 30`. -/
def specUpperBound (hiPrev : ℚ) (lowHI : Option ℚ) : ℚ :=
  min (lowHI.getD hiPrev) hiPrev + 30

/-- A number on the binary64 grid: an infinity, `NaN`, or an integer multiple
of `2 ^ -1074`, the smallest positive binary64 number. -/
def OnGrid : JsNum → Prop
  | .num q => ∃ k : ℤ, q = k / 2 ^ 1074
  | _ => True

/-- The order of the nets of two rows that the specification asks of a ranked
week, the first row coming before the second: numeric nets ascending, and no
null net before a numeric one. -/
def NetsInOrder : Option JsNum → Option JsNum → Prop
  | some x, some y => JsNum.lt y x = false
  | none, some _ => False
  | _, none => True

/-- A net that is null or a binary64 number other than `NaN`. -/
def GoodNet : Option JsNum → Prop
  | none => True
  | some x => OnGrid x ∧ x ≠ .nan

/-- A comparator is consistent when the relation "`cmp a b ≤ 0`" is total and
transitive. -/
def ConsistentComparator (cmp : String → String → ℤ) : Prop :=
  (∀ a b, cmp a b ≤ 0 ∨ cmp b a ≤ 0) ∧
  (∀ a b c, cmp a b ≤ 0 → cmp b c ≤ 0 → cmp a c ≤ 0)

/-- Points of the rows of one player in one computed week. -/
def weekPointsOf (playerId : String) (week : League.WeekComputed) : ℤ :=
  ((week.rows.filter (fun row => row.playerId = playerId)).map (fun row => row.points)).sum

/-- Points of the rows of one player over all computed weeks. -/
def seasonPointsOf (playerId : String) (weeks : List League.WeekComputed) : ℤ :=
  (weeks.map (weekPointsOf playerId)).sum

/-- A sample season: five roster players, one unknown player id, one time
that does not parse, two weeks. -/
def sampleSeason : League.Season :=
  { players := some [⟨"a", "Ann", .num 250⟩, ⟨"b", "Bob", .num 240⟩, ⟨"c", "Cy", .num 0⟩,
      ⟨"e", "Eve", .num 200⟩, ⟨"d", "Dee", .num 210⟩],
    weeks := some [
      ⟨some 1, "2025-01-05",
        some [⟨"a", "25:00"⟩, ⟨"b", "bad"⟩, ⟨"z", "20:00"⟩, ⟨"c", "20:00"⟩]⟩,
      ⟨some 2, "2025-01-12", some [⟨"b", "24:00"⟩, ⟨"a", "25:00"⟩]⟩] }

/-- The value computed for the sample season. -/
def sampleComputed : League.SeasonComputed :=
  { weeks := [
      ⟨"1", some 1, "2025-01-05",
        [⟨"a", "Ann", "25:00", .num 250, some (.num 50), 1, 10⟩,
         ⟨"z", "Unknown runner", "20:00", .num 0, some (.num 240), 2, 8⟩,
         ⟨"c", "Cy", "20:00", .num 0, some (.num 240), 3, 6⟩,
         ⟨"b", "Bob", "bad", .num 240, none, 4, 4⟩]⟩,
      ⟨"2", some 2, "2025-01-12",
        [⟨"b", "Bob", "24:00", .num 240, some (.num 48), 1, 10⟩,
         ⟨"a", "Ann", "25:00", .num 250, some (.num 50), 2, 8⟩]⟩],
    standings := [
      ⟨1, "a", "Ann", 18, .num 250⟩, ⟨2, "b", "Bob", 14, .num 240⟩,
      ⟨3, "z", "Unknown runner", 8, .num 0⟩, ⟨4, "c", "Cy", 6, .num 0⟩,
      ⟨5, "d", "Dee", 0, .num 210⟩, ⟨6, "e", "Eve", 0, .num 200⟩] }

/-- A season with a week in which the time of the second result has the
value `NaN`: `1e400` overflows to `Infinity`, and `Infinity * 60 + -Infinity`
is `NaN`. -/
def nanSeason : League.Season :=
  { players := some [],
    weeks := some [
      ⟨some 1, "2025-01-05",
        some [⟨"x", "20:05"⟩, ⟨"y", "1e400:-1e400"⟩, ⟨"z", "20:00"⟩]⟩] }

/-- The value computed for `nanSeason`. -/
def nanComputed : League.SeasonComputed :=
  { weeks := [
      ⟨"1", some 1, "2025-01-05",
        [⟨"x", "Unknown runner", "20:05", .num 0, some (.num 241), 1, 10⟩,
         ⟨"y", "Unknown runner", "1e400:-1e400", .num 0, some .nan, 2, 8⟩,
         ⟨"z", "Unknown runner", "20:00", .num 0, some (.num 240), 3, 6⟩]⟩],
    standings := [
      ⟨1, "x", "Unknown runner", 10, .num 0⟩, ⟨2, "y", "Unknown runner", 8, .num 0⟩,
      ⟨3, "z", "Unknown runner", 6, .num 0⟩] }

/-- A season whose times exercise the parser: a rounded pace, two nets that
differ only by rounding, an infinite time, empty parts, spaces, literals in
other notations, a time with two colons and an empty time. -/
def parserSeason : League.Season :=
  { players := some [⟨"p", "Pat", .num (1 / 2)⟩, ⟨"q", "Quin", .num 20⟩],
    weeks := some [
      ⟨some 1, "2025-01-05",
        some [⟨"p", "0:03"⟩, ⟨"q", "21:42"⟩, ⟨"u", "20:02"⟩, ⟨"i", "Infinity:00"⟩,
          ⟨"c", ":"⟩, ⟨"t", "1:2:3"⟩, ⟨"s", " 20 : 00 "⟩, ⟨"h", "0x10:1e1"⟩, ⟨"e", ""⟩]⟩] }

/-- The value computed for `parserSeason`. -/
def parserComputed : League.SeasonComputed :=
  { weeks := [
      ⟨"1", some 1, "2025-01-05",
        [⟨"c", "Unknown runner", ":", .num 0, some (.num 0), 1, 10⟩,
         ⟨"p", "Pat", "0:03", .num (1 / 2),
           some (.num (900719925474099 / 9007199254740992)), 2, 8⟩,
         ⟨"h", "Unknown runner", "0x10:1e1", .num 0, some (.num 194), 3, 6⟩,
         ⟨"s", "Unknown runner", " 20 : 00 ", .num 0, some (.num 240), 4, 4⟩,
         ⟨"q", "Quin", "21:42", .num 20,
           some (.num (2114580762538803 / 8796093022208)), 5, 2⟩,
         ⟨"u", "Unknown runner", "20:02", .num 0,
           some (.num (8458323050155213 / 35184372088832)), 6, 0⟩,
         ⟨"i", "Unknown runner", "Infinity:00", .num 0, some .posInf, 7, 0⟩,
         ⟨"t", "Unknown runner", "1:2:3", .num 0, none, 8, 0⟩,
         ⟨"e", "Unknown runner", "", .num 0, none, 9, 0⟩]⟩],
    standings := [
      ⟨1, "c", "Unknown runner", 10, .num 0⟩, ⟨2, "p", "Pat", 8, .num (1 / 2)⟩,
      ⟨3, "h", "Unknown runner", 6, .num 0⟩, ⟨4, "s", "Unknown runner", 4, .num 0⟩,
      ⟨5, "q", "Quin", 2, .num 20⟩, ⟨6, "u", "Unknown runner", 0, .num 0⟩,
      ⟨7, "i", "Unknown runner", 0, .num 0⟩, ⟨8, "t", "Unknown runner", 0, .num 0⟩,
      ⟨9, "e", "Unknown runner", 0, .num 0⟩] }

/-- A season whose only week has no week number. -/
def unnumberedSeason : League.Season :=
  { players := some [], weeks := some [⟨none, "2025-01-05", some []⟩] }

/-! ## The calculator -/

section CalculatorProofs

open Calculator

/-- The value of `applyCaps` on finite arguments. -/
theorem applyCaps_num (hiPrev hiRaw : ℚ) (lowHI : Option ℚ) :
    applyCaps (.num hiPrev) (.num hiRaw) (lowHI.map JsNum.num) =
      .num (max 0 (min hiRaw (specUpperBound hiPrev lowHI))) := by
  cases lowHI with
  | none =>
    simp [applyCaps, specUpperBound, JsNum.mathMax, JsNum.mathMin, HAdd.hAdd, Add.add,
      JsNum.add]
  | some low =>
    simp [applyCaps, specUpperBound, JsNum.mathMax, JsNum.mathMin, HAdd.hAdd, Add.add,
      JsNum.add]

/-- C1, as amended: `applyCaps` on finite numbers returns the finite value
`max(0, min(hiRaw, min(lowHI ?? hiPrev, hiPrev) + 30))`, which is never below 0
and never above `max(0, min(lowHI ?? hiPrev, hiPrev) + 30)`. -/
theorem applyCaps_bounds (hiPrev hiRaw : ℚ) (lowHI : Option ℚ) :
    ∃ r : ℚ, applyCaps (.num hiPrev) (.num hiRaw) (lowHI.map JsNum.num) = .num r ∧
      r = max 0 (min hiRaw (specUpperBound hiPrev lowHI)) ∧
      0 ≤ r ∧ r ≤ max 0 (specUpperBound hiPrev lowHI) := by
  refine ⟨_, applyCaps_num hiPrev hiRaw lowHI, rfl, le_max_left _ _, ?_⟩
  exact max_le_max (le_refl _) (min_le_right _ _)

/-- C1, counterexample: with `hiPrev = -50`, `hiRaw = 0` and `lowHI = null` the
result is 0, which is above `min(lowHI ?? hiPrev, hiPrev) + 30 = -20`. -/
theorem applyCaps_bounds_counterexample :
    ¬ (∃ r : ℚ, applyCaps (.num (-50)) (.num 0) none = .num r ∧
        0 ≤ r ∧ r ≤ specUpperBound (-50) none) := by
  have h : applyCaps (.num (-50)) (.num 0) none = .num 0 := by decide!
  rintro ⟨r, hr, -, hle⟩
  rw [h] at hr
  cases hr
  revert hle
  decide!

/-- The PD check of the handler never fires: `pdList` holds no `NaN` once the
last `filter` of its chain has run. -/
theorem submit_never_invalidPdEntry (f : FormFields) :
    submit f ≠ .error .invalidPdEntry := by
  have hfil : (parsePdList f.pds).any (fun pd => pd.isNaN) = false := by
    simp only [parsePdList, List.any_eq_false, List.mem_filter]
    intro pd hpd
    simpa using hpd.2
  unfold submit
  simp only [hfil, Bool.and_false]
  split
  · simp
  · split <;> simp

/-- C6: on old HI `130`, blank low HI, time `22:10` and PD history `120, abc`
the handler reports no error: it drops `abc` and renders the new HI 60 computed
from the remaining entry. -/
theorem submit_drops_unparsable_pd :
    submit ⟨"130", "", "22:10", "120, abc"⟩ =
      .ok ⟨.num 26, .num 73, .num (52 / 5), .num 60, .num 60, .num 130⟩ := by
  decide!

/-- C8, counterexample: on old HI 150, blank low HI, time `20:00` and no PD
history the handler does not produce the raw value -20. -/
theorem submit_150_counterexample :
    ¬ (∃ t : CalcTrace, submit ⟨"150", "", "20:00", ""⟩ = .ok t ∧
        t.pdToday = .num 0 ∧ t.hiRawBase = .num 0 ∧ t.bonus = .num 15 ∧
        t.hiRaw = .num (-20) ∧ t.hiNew = .num 0) := by
  have h : submit ⟨"150", "", "20:00", ""⟩ =
      .ok ⟨.num 0, .num 0, .num 15, .num (-10), .num 0, .num 150⟩ := by decide!
  rintro ⟨t, ht, -, -, -, hraw, -⟩
  rw [h] at ht
  cases ht
  revert hraw
  decide!

/-- C8, as amended: on old HI 150, blank low HI, time `20:00` and no PD history
the handler computes `pdToday = 0`, `hiRawBase = 0`, `bonus = 15`,
`hiRaw = round10(-15) = -10` and the clamped `newHi = 0`. -/
theorem submit_150 :
    submit ⟨"150", "", "20:00", ""⟩ =
        .ok ⟨.num 0, .num 0, .num 15, .num (-10), .num 0, .num 150⟩ ∧
      round10 (.num (-15)) = .num (-10) ∧
      applyCaps (.num 150) (.num (-10)) none = .num 0 := by
  decide!

/-- C9: on old HI 130, blank low HI, time `22:10` and PD history `120` the
pipeline gives 1330 seconds, `pdToday = 26`, the average 73, the bonus 10.4,
`hiRaw = round10(62.6) = 60` and `newHi = 60`. -/
theorem submit_130 :
    parseTimeToSeconds "22:10" = some (.num 1330) ∧
      pdFromTime (.num 1330) = .num 26 ∧
      hiFromPDs [.num 120, .num 26] = .num 73 ∧
      exceptionalCutIfAny (.num 26) (.num 130) = .num (104 / 10) ∧
      JsNum.num 73 - JsNum.num (104 / 10) = .num (626 / 10) ∧
      round10 (.num (626 / 10)) = .num 60 ∧
      applyCaps (.num 130) (.num 60) none = .num 60 ∧
      submit ⟨"130", "", "22:10", "120"⟩ =
        .ok ⟨.num 26, .num 73, .num (104 / 10), .num 60, .num 60, .num 130⟩ := by
  decide!

/-- Values of `Number` on strings: rounding to binary64, overflow, the literal
`Infinity`, other notations, white space and strings that are not numeric. -/
theorem toNumber_examples :
    toNumber "0.1".data = .num (3602879701896397 / 36028797018963968) ∧
      toNumber "Infinity".data = .posInf ∧
      toNumber "-Infinity".data = .negInf ∧
      toNumber "+Infinity".data = .posInf ∧
      toNumber "infinity".data = .nan ∧
      toNumber "1e400".data = .posInf ∧
      toNumber "-1e400".data = .negInf ∧
      toNumber "1e-400".data = .num 0 ∧
      toNumber "9007199254740993".data = .num 9007199254740992 ∧
      toNumber "".data = .num 0 ∧
      toNumber "  12 ".data = .num 12 ∧
      toNumber "0x1F".data = .num 31 ∧
      toNumber "1.5e1".data = .num 15 ∧
      toNumber ".5".data = .num (1 / 2) ∧
      toNumber "5.".data = .num 5 ∧
      toNumber "-0x10".data = .nan ∧
      toNumber "12px".data = .nan ∧
      toNumber "1e".data = .nan ∧
      toNumber ".".data = .nan := by
  decide!

/-- The handler on infinite input: an old HI `Infinity` is accepted and gives
the new HI 0, and a PD entry `Infinity` is kept and gives the capped new HI
160. -/
theorem submit_infinity_examples :
    submit ⟨"Infinity", "", "20:00", ""⟩ =
        .ok ⟨.num 0, .num 0, .posInf, .negInf, .num 0, .posInf⟩ ∧
      submit ⟨"130", "", "22:10", "Infinity"⟩ =
        .ok ⟨.num 26, .posInf, .num (104 / 10), .posInf, .num 160, .num 130⟩ := by
  decide!

end CalculatorProofs

/-! ## Rounding to binary64: basic facts -/

section DoubleFacts

open JsNum

theorem log2Fuel_spec (fuel : ℕ) : ∀ n, 0 < n → n ≤ fuel →
    2 ^ log2Fuel fuel n ≤ n ∧ n < 2 ^ (log2Fuel fuel n + 1) := by
  induction fuel with
  | zero => intro n h0 h1; omega
  | succ fuel ih =>
    intro n h0 h1
    unfold log2Fuel
    split
    · rename_i hlt
      have : n = 1 := by omega
      subst this
      simp
    · rename_i hge
      have h2 : 0 < n / 2 := Nat.div_pos (by omega) (by decide)
      have h3 : n / 2 ≤ fuel := by omega
      obtain ⟨hl, hu⟩ := ih (n / 2) h2 h3
      constructor
      · rw [pow_succ]
        omega
      · rw [pow_succ]
        omega

theorem roundHalfEven_pos (n d : ℕ) (hd : 0 < d) (h : d ≤ n) : 1 ≤ roundHalfEven n d := by
  have hq : 1 ≤ n / d := (Nat.one_le_div_iff hd).2 h
  unfold roundHalfEven
  simp only
  split
  · exact hq
  · split
    · omega
    · split
      · exact hq
      · omega

theorem floorLog2_le (n d : ℕ) (hn : 0 < n) (hd : 0 < d) :
    (0 ≤ floorLog2 n d → d * 2 ^ (floorLog2 n d).toNat ≤ n) ∧
      (floorLog2 n d < 0 → d ≤ n * 2 ^ (-(floorLog2 n d)).toNat) := by
  obtain ⟨hn1, -⟩ := log2Fuel_spec n n hn (le_refl n)
  obtain ⟨-, hd2⟩ := log2Fuel_spec d d hd (le_refl d)
  unfold floorLog2
  generalize log2Fuel n n = a at hn1 ⊢
  generalize log2Fuel d d = b at hd2 ⊢
  have hbelow : (0 ≤ (a : ℤ) - b - 1 → d * 2 ^ ((a : ℤ) - b - 1).toNat ≤ n) ∧
      ((a : ℤ) - b - 1 < 0 → d ≤ n * 2 ^ (-((a : ℤ) - b - 1)).toNat) := by
    constructor
    · intro h0
      have ht : ((a : ℤ) - b - 1).toNat = a - (b + 1) := by omega
      rw [ht]
      calc d * 2 ^ (a - (b + 1)) ≤ 2 ^ (b + 1) * 2 ^ (a - (b + 1)) :=
            Nat.mul_le_mul_right _ (le_of_lt hd2)
        _ = 2 ^ a := by
            rw [← pow_add]
            congr 1
            omega
        _ ≤ n := hn1
    · intro h0
      have ht : (-((a : ℤ) - b - 1)).toNat = b + 1 - a := by omega
      rw [ht]
      calc d ≤ 2 ^ (b + 1) := le_of_lt hd2
        _ = 2 ^ a * 2 ^ (b + 1 - a) := by
            rw [← pow_add]
            congr 1
            omega
        _ ≤ n * 2 ^ (b + 1 - a) := Nat.mul_le_mul_right _ hn1
  simp only
  by_cases hk : 0 ≤ (a : ℤ) - b
  · by_cases hb : n < d * 2 ^ ((a : ℤ) - b).toNat
    · simp only [hk, hb, if_true, decide_True]
      exact hbelow
    · simp only [hk, hb, if_true, decide_False, Bool.false_eq_true, if_false]
      exact ⟨fun _ => not_lt.1 hb, fun h0 => absurd hk (not_le.2 h0)⟩
  · by_cases hb : n * 2 ^ (-((a : ℤ) - b)).toNat < d
    · simp only [hk, hb, if_false, if_true, decide_True]
      exact hbelow
    · simp only [hk, hb, if_false, decide_False, Bool.false_eq_true]
      exact ⟨fun h0 => False.elim h0, fun _ => not_lt.1 hb⟩

theorem roundPos_spec (n d : ℕ) (hn : 0 < n) (hd : 0 < d) :
    roundPos n d = .posInf ∨
      ∃ m t : ℕ,
        (roundPos n d = .num ((m * 2 ^ t : ℕ) : ℚ) ∨
          (t ≤ 1074 ∧ roundPos n d = .num ((m : ℚ) / ((2 ^ t : ℕ) : ℚ)))) ∧
        (d ≤ n * 2 ^ 1074 → 1 ≤ m) := by
  obtain ⟨hf1, hf2⟩ := floorLog2_le n d hn hd
  unfold roundPos
  generalize floorLog2 n d = f at hf1 hf2 ⊢
  have he1 : -1022 ≤ max f (-1022) := le_max_right _ _
  have he3 : (max f (-1022) = f ∧ -1022 ≤ f) ∨ (max f (-1022) = -1022 ∧ f ≤ -1022) := by
    rcases le_total f (-1022) with h | h
    · exact Or.inr ⟨max_eq_right h, h⟩
    · exact Or.inl ⟨max_eq_left h, h⟩
  generalize max f (-1022) = e at he1 he3 ⊢
  simp only
  by_cases h1 : 1023 < e
  · left
    simp [h1]
  · simp only [h1, if_false]
    by_cases hs : 0 ≤ e - 52
    · simp only [hs, if_true]
      by_cases h2 : e = 1023 ∧ 2 ^ 53 ≤ roundHalfEven n (d * 2 ^ (e - 52).toNat)
      · left
        rw [if_pos h2]
      · right
        refine ⟨roundHalfEven n (d * 2 ^ (e - 52).toNat), (e - 52).toNat,
          Or.inl (by simp only [h2, if_false]), ?_⟩
        intro _
        apply roundHalfEven_pos _ _ (Nat.mul_pos hd (Nat.two_pow_pos _))
        have hef : e = f := by omega
        subst hef
        have h3 := hf1 (by omega)
        calc d * 2 ^ (e - 52).toNat ≤ d * 2 ^ e.toNat :=
              Nat.mul_le_mul_left _ (Nat.pow_le_pow_right (by decide) (by omega))
          _ ≤ n := h3
    · simp only [hs, if_false]
      by_cases h2 : e = 1023 ∧ 2 ^ 53 ≤ roundHalfEven (n * 2 ^ (-(e - 52)).toNat) d
      · left
        rw [if_pos h2]
      · right
        refine ⟨roundHalfEven (n * 2 ^ (-(e - 52)).toNat) d, (-(e - 52)).toNat,
          Or.inr ⟨by omega, by simp only [h2, if_false]⟩, ?_⟩
        intro hmin
        apply roundHalfEven_pos _ _ hd
        rcases he3 with ⟨hef, hge⟩ | ⟨hee, hle⟩
        · subst hef
          by_cases hpos : 0 ≤ e
          · have h3 := hf1 hpos
            calc d ≤ d * 2 ^ e.toNat := Nat.le_mul_of_pos_right _ (Nat.two_pow_pos _)
              _ ≤ n := h3
              _ ≤ n * 2 ^ (-(e - 52)).toNat :=
                Nat.le_mul_of_pos_right _ (Nat.two_pow_pos _)
          · have h3 := hf2 (by omega)
            calc d ≤ n * 2 ^ (-e).toNat := h3
              _ ≤ n * 2 ^ (-(e - 52)).toNat :=
                Nat.mul_le_mul_left _ (Nat.pow_le_pow_right (by decide) (by omega))
        · subst hee
          have ht : (-((-1022 : ℤ) - 52)).toNat = 1074 := by decide
          rw [ht]
          exact hmin

theorem grid_of_nat_mul (m u : ℕ) : ∃ k : ℤ, ((m * u : ℕ) : ℚ) = k / 2 ^ 1074 := by
  have hG : (0 : ℚ) < 2 ^ 1074 := pow_pos (by norm_num) _
  have hI : (((2 : ℤ) ^ 1074 : ℤ) : ℚ) = 2 ^ 1074 := by
    rw [Int.cast_pow, Int.cast_ofNat]
  generalize (2 : ℚ) ^ 1074 = G at hG hI
  generalize (2 : ℤ) ^ 1074 = GI at hI
  refine ⟨(m * u : ℕ) * GI, ?_⟩
  rw [Int.cast_mul, hI, Int.cast_natCast, mul_div_assoc, div_self (ne_of_gt hG), mul_one]

theorem grid_of_nat_div (m t : ℕ) (ht : t ≤ 1074) :
    ∃ k : ℤ, (m : ℚ) / ((2 ^ t : ℕ) : ℚ) = k / 2 ^ 1074 := by
  have h2 : (2 : ℚ) ^ 1074 = 2 ^ t * 2 ^ (1074 - t) := by
    rw [← pow_add]
    congr 1
    omega
  have ht0 : (0 : ℚ) < 2 ^ t := pow_pos (by norm_num) _
  have hu0 : (0 : ℚ) < 2 ^ (1074 - t) := pow_pos (by norm_num) _
  have hI : (((2 : ℤ) ^ (1074 - t) : ℤ) : ℚ) = 2 ^ (1074 - t) := by
    rw [Int.cast_pow, Int.cast_ofNat]
  have hN : (((2 : ℕ) ^ t : ℕ) : ℚ) = 2 ^ t := by
    rw [Nat.cast_pow, Nat.cast_ofNat]
  rw [h2, hN]
  generalize (2 : ℚ) ^ t = A at ht0
  generalize (2 : ℚ) ^ (1074 - t) = B at hu0 hI
  generalize (2 : ℤ) ^ (1074 - t) = BI at hI
  refine ⟨(m : ℤ) * BI, ?_⟩
  rw [Int.cast_mul, hI, Int.cast_natCast]
  field_simp
  ring

theorem roundPos_grid (n d : ℕ) (hn : 0 < n) (hd : 0 < d) :
    roundPos n d = .posInf ∨
      ∃ r : ℚ, roundPos n d = .num r ∧ (∃ k : ℤ, r = k / 2 ^ 1074) ∧
        (d ≤ n * 2 ^ 1074 → 0 < r) := by
  rcases roundPos_spec n d hn hd with h | ⟨m, t, h, hm⟩
  · exact Or.inl h
  · right
    rcases h with h | ⟨ht, h⟩
    · refine ⟨_, h, grid_of_nat_mul m (2 ^ t), ?_⟩
      intro hmin
      have h1 := hm hmin
      have h2 : 0 < m * 2 ^ t := Nat.mul_pos h1 (Nat.two_pow_pos t)
      exact_mod_cast h2
    · refine ⟨_, h, grid_of_nat_div m t ht, ?_⟩
      intro hmin
      have h1 := hm hmin
      have h3 : (0 : ℚ) < (m : ℚ) := by exact_mod_cast h1
      have h4 : (0 : ℚ) < ((2 ^ t : ℕ) : ℚ) := by exact_mod_cast Nat.two_pow_pos t
      exact div_pos h3 h4

theorem grid_min (q : ℚ) (hq : ∃ k : ℤ, q = k / 2 ^ 1074) (hpos : 0 < q) :
    q.den ≤ q.num.natAbs * 2 ^ 1074 := by
  obtain ⟨k, hk⟩ := hq
  have hG : (0 : ℚ) < 2 ^ 1074 := pow_pos (by norm_num) _
  have hN : (((2 : ℕ) ^ 1074 : ℕ) : ℚ) = 2 ^ 1074 := by
    rw [Nat.cast_pow, Nat.cast_ofNat]
  suffices h4 : ((q.den : ℕ) : ℚ) ≤ ((q.num.natAbs * 2 ^ 1074 : ℕ) : ℚ) by
    exact_mod_cast h4
  rw [Nat.cast_mul, hN]
  generalize (2 : ℚ) ^ 1074 = G at hG hk
  have hk0 : (0 : ℚ) < k := by
    rw [hk] at hpos
    exact (div_pos_iff_of_pos_right hG).1 hpos
  have hk1 : (1 : ℚ) ≤ k := by
    have : (0 : ℤ) < k := by exact_mod_cast hk0
    exact_mod_cast this
  have hnum : 0 < q.num := Rat.num_pos.2 hpos
  have hden : (0 : ℚ) < q.den := by exact_mod_cast q.den_pos
  have hq2 : (q.num : ℚ) / q.den = q := Rat.num_div_den q
  have habs : ((q.num.natAbs : ℕ) : ℚ) = (q.num : ℚ) := by
    rw [← Int.cast_natCast, Int.natAbs_of_nonneg (le_of_lt hnum)]
  have h1 : (1 : ℚ) ≤ q * G := by
    rw [hk, div_mul_cancel₀ _ (ne_of_gt hG)]
    exact hk1
  rw [habs]
  rw [← hq2, div_mul_eq_mul_div, le_div_iff₀ hden, one_mul] at h1
  exact h1

theorem toDouble_num (q : ℚ) :
    (JsNum.num q).toDouble =
      if q = 0 then .num 0
      else if 0 < q then roundPos q.num.natAbs q.den
      else (roundPos q.num.natAbs q.den).neg := rfl

theorem toDouble_onGrid (x : JsNum) : OnGrid x.toDouble := by
  cases x with
  | num q =>
    rw [toDouble_num]
    by_cases h0 : q = 0
    · rw [if_pos h0]
      exact ⟨0, by simp⟩
    · rw [if_neg h0]
      have hn : 0 < q.num.natAbs := Int.natAbs_pos.2 (Rat.num_ne_zero.2 h0)
      by_cases hpos : 0 < q
      · rw [if_pos hpos]
        rcases roundPos_grid _ _ hn q.den_pos with h | ⟨r, h, hk, -⟩
        · rw [h]
          trivial
        · rw [h]
          exact hk
      · rw [if_neg hpos]
        rcases roundPos_grid _ _ hn q.den_pos with h | ⟨r, h, ⟨k, hk⟩, -⟩
        · rw [h]
          trivial
        · rw [h]
          exact ⟨-k, by rw [hk, Int.cast_neg, neg_div]⟩
  | posInf => trivial
  | negInf => trivial
  | nan => trivial

/-- On the grid, rounding keeps the sign: a difference of two binary64 numbers
does not underflow to zero. -/
theorem toDouble_sign (q : ℚ) (hq : ∃ k : ℤ, q = k / 2 ^ 1074) :
    sortValue (JsNum.num q).toDouble = if q < 0 then -1 else if 0 < q then 1 else 0 := by
  rw [toDouble_num]
  by_cases h0 : q = 0
  · rw [if_pos h0]
    subst h0
    simp [sortValue]
  · rw [if_neg h0]
    have hn : 0 < q.num.natAbs := Int.natAbs_pos.2 (Rat.num_ne_zero.2 h0)
    by_cases hpos : 0 < q
    · rw [if_pos hpos]
      have hnl : ¬ q < 0 := not_lt.2 (le_of_lt hpos)
      rw [if_neg hnl, if_pos hpos]
      rcases roundPos_grid _ _ hn q.den_pos with h | ⟨r, h, -, hr⟩
      · rw [h]
        rfl
      · rw [h]
        have hr0 := hr (grid_min q hq hpos)
        have hrn : ¬ r < 0 := not_lt.2 (le_of_lt hr0)
        simp only [sortValue, if_neg hrn, if_pos hr0]
    · rw [if_neg hpos]
      have hneg : q < 0 := lt_of_le_of_ne (not_lt.1 hpos) h0
      rw [if_pos hneg]
      have hq2 : ∃ k : ℤ, -q = k / 2 ^ 1074 := by
        obtain ⟨k, hk⟩ := hq
        exact ⟨-k, by rw [hk, Int.cast_neg, neg_div]⟩
      have hmin := grid_min (-q) hq2 (neg_pos.2 hneg)
      rw [Rat.neg_num, Int.natAbs_neg, Rat.neg_den] at hmin
      rcases roundPos_grid _ _ hn q.den_pos with h | ⟨r, h, -, hr⟩
      · rw [h]
        rfl
      · rw [h]
        have hr0 : -r < 0 := neg_lt_zero.2 (hr hmin)
        simp only [JsNum.neg, sortValue, if_pos hr0]

/-- The comparator `a - b` on binary64 numbers other than `NaN`: its result is
not positive exactly when `b < a` is false. -/
theorem sub_sortValue (x y : JsNum) (hx : OnGrid x) (hy : OnGrid y) (hxn : x ≠ .nan)
    (hyn : y ≠ .nan) : sortValue (Double.sub x y) ≤ 0 ↔ JsNum.lt y x = false := by
  cases x with
  | num a =>
    cases y with
    | num b =>
      obtain ⟨ka, hka⟩ := hx
      obtain ⟨kb, hkb⟩ := hy
      have hg : ∃ k : ℤ, a - b = k / 2 ^ 1074 :=
        ⟨ka - kb, by rw [hka, hkb, Int.cast_sub, sub_div]⟩
      have hs : Double.sub (.num a) (.num b) = (JsNum.num (a - b)).toDouble := rfl
      rw [hs, toDouble_sign _ hg]
      simp only [JsNum.lt, decide_eq_false_iff_not, not_lt]
      by_cases h1 : a - b < 0
      · rw [if_pos h1]
        constructor
        · intro _
          linarith
        · intro _
          decide
      · rw [if_neg h1]
        by_cases h2 : 0 < a - b
        · rw [if_pos h2]
          constructor
          · intro h
            exact absurd h (by decide)
          · intro h
            linarith
        · rw [if_neg h2]
          constructor
          · intro _
            linarith
          · intro _
            decide
    | posInf => simp [Double.sub, HSub.hSub, Sub.sub, JsNum.sub, JsNum.add, JsNum.neg,
        JsNum.toDouble, sortValue, JsNum.lt]
    | negInf => simp [Double.sub, HSub.hSub, Sub.sub, JsNum.sub, JsNum.add, JsNum.neg,
        JsNum.toDouble, sortValue, JsNum.lt]
    | nan => exact absurd rfl hyn
  | posInf =>
    cases y with
    | num b => simp [Double.sub, HSub.hSub, Sub.sub, JsNum.sub, JsNum.add, JsNum.neg,
        JsNum.toDouble, sortValue, JsNum.lt]
    | posInf => simp [Double.sub, HSub.hSub, Sub.sub, JsNum.sub, JsNum.add, JsNum.neg,
        JsNum.toDouble, sortValue, JsNum.lt]
    | negInf => simp [Double.sub, HSub.hSub, Sub.sub, JsNum.sub, JsNum.add, JsNum.neg,
        JsNum.toDouble, sortValue, JsNum.lt]
    | nan => exact absurd rfl hyn
  | negInf =>
    cases y with
    | num b => simp [Double.sub, HSub.hSub, Sub.sub, JsNum.sub, JsNum.add, JsNum.neg,
        JsNum.toDouble, sortValue, JsNum.lt]
    | posInf => simp [Double.sub, HSub.hSub, Sub.sub, JsNum.sub, JsNum.add, JsNum.neg,
        JsNum.toDouble, sortValue, JsNum.lt]
    | negInf => simp [Double.sub, HSub.hSub, Sub.sub, JsNum.sub, JsNum.add, JsNum.neg,
        JsNum.toDouble, sortValue, JsNum.lt]
    | nan => exact absurd rfl hyn
  | nan => exact absurd rfl hxn

theorem lt_false_total (x y : JsNum) : JsNum.lt y x = false ∨ JsNum.lt x y = false := by
  cases x <;> cases y <;> simp [JsNum.lt]
  exact le_total _ _

theorem lt_false_trans (x y z : JsNum) (hy : y ≠ .nan) (h1 : JsNum.lt y x = false)
    (h2 : JsNum.lt z y = false) : JsNum.lt z x = false := by
  cases x <;> cases y <;> cases z <;> simp [JsNum.lt] at h1 h2 hy ⊢
  exact le_trans h1 h2

end DoubleFacts

/-! ## Library models: basic facts -/

section LibraryFacts

theorem mapWithIndex_length {α β : Type} (f : α → Nat → β) (l : List α) (k : Nat) :
    (mapWithIndex f l k).length = l.length := by
  induction l generalizing k with
  | nil => rfl
  | cons a l ih => simp [mapWithIndex, ih]

theorem mapWithIndex_getElem {α β : Type} (f : α → Nat → β) (l : List α) (k i : Nat)
    (h : i < (mapWithIndex f l k).length) (h2 : i < l.length) :
    (mapWithIndex f l k)[i] = f l[i] (k + i) := by
  induction l generalizing k i with
  | nil => simp at h2
  | cons a l ih =>
    cases i with
    | zero => simp [mapWithIndex]
    | succ i =>
      simp only [mapWithIndex, List.getElem_cons_succ]
      rw [ih (k + 1) i _ (by simpa using h2)]
      congr 1
      omega

theorem mapWithIndex_map {α β γ : Type} (f : α → Nat → β) (g : β → γ) (g0 : α → γ)
    (hg : ∀ a i, g (f a i) = g0 a) (l : List α) (k : Nat) :
    (mapWithIndex f l k).map g = l.map g0 := by
  induction l generalizing k with
  | nil => rfl
  | cons a l ih => simp [mapWithIndex, hg, ih]

theorem mapRaising_ok {α β ε : Type} (f : α → Except ε β) :
    ∀ (l : List α) (bs : List β), mapRaising f l = .ok bs →
      List.Forall₂ (fun a b => f a = .ok b) l bs := by
  intro l
  induction l with
  | nil =>
    intro bs h
    simp [mapRaising] at h
    subst h
    exact List.Forall₂.nil
  | cons a l ih =>
    intro bs h
    simp only [mapRaising] at h
    split at h
    · cases h
    · rename_i b hb
      split at h
      · cases h
      · rename_i bs0 hbs
        cases h
        exact List.Forall₂.cons hb (ih bs0 hbs)

theorem mapRaising_error {α β ε : Type} (f : α → Except ε β) (l : List α) (a : α) (e : ε)
    (ha : a ∈ l) (hf : f a = .error e) : ∃ e0, mapRaising f l = .error e0 := by
  induction l with
  | nil => cases ha
  | cons b l ih =>
    simp only [mapRaising]
    rcases List.mem_cons.1 ha with rfl | hmem
    · rw [hf]
      exact ⟨e, rfl⟩
    · cases hb : f b with
      | error e1 => exact ⟨e1, rfl⟩
      | ok b1 =>
        obtain ⟨e0, he0⟩ := ih hmem
        rw [he0]
        exact ⟨e0, rfl⟩

theorem mapRaising_total {α β ε : Type} (f : α → Except ε β) (l : List α)
    (h : ∀ a ∈ l, ∃ b, f a = .ok b) : ∃ bs, mapRaising f l = .ok bs := by
  induction l with
  | nil => exact ⟨[], rfl⟩
  | cons a l ih =>
    obtain ⟨b, hb⟩ := h a (List.mem_cons_self _ _)
    obtain ⟨bs, hbs⟩ := ih (fun x hx => h x (List.mem_cons_of_mem _ hx))
    exact ⟨b :: bs, by simp [mapRaising, hb, hbs]⟩

theorem arraySort_perm {α β : Type} [Zero β] [LE β] [DecidableRel (fun (x y : β) => x ≤ y)]
    (cmp : α → α → β) (l : List α) : (arraySort cmp l).Perm l :=
  List.perm_insertionSort _ l

theorem arraySort_pairwise {α β : Type} [Zero β] [LE β]
    [DecidableRel (fun (x y : β) => x ≤ y)] (cmp : α → α → β)
    (htot : ∀ a b, cmp a b ≤ 0 ∨ cmp b a ≤ 0)
    (htrans : ∀ a b c, cmp a b ≤ 0 → cmp b c ≤ 0 → cmp a c ≤ 0) (l : List α) :
    (arraySort cmp l).Pairwise (fun a b => cmp a b ≤ 0) := by
  haveI : IsTotal α (fun a b => cmp a b ≤ 0) := ⟨htot⟩
  haveI : IsTrans α (fun a b => cmp a b ≤ 0) := ⟨htrans⟩
  exact List.sorted_insertionSort (fun a b => cmp a b ≤ 0) l

end LibraryFacts

/-! ## The weekly leaderboard -/

section WeekProofs

open League

/-- The order read by the weekly sort: `a` stays before `b`. -/
theorem rowsBefore_null_right (a b : RawRow) (hb : b.net = none) :
    sortValue (compareRows a b) ≤ 0 := by
  unfold compareRows
  cases ha : a.net <;> simp [hb, sortValue]

theorem rowsBefore_null_left (a b : RawRow) (ha : a.net = none)
    (h : sortValue (compareRows a b) ≤ 0) : b.net = none := by
  unfold compareRows at h
  cases hb : b.net with
  | none => rfl
  | some y =>
    rw [ha, hb] at h
    norm_num [sortValue] at h

/-- Insertion keeps a relation `Q` pairwise when, on the elements that satisfy
`P`, the sort order implies `Q`, its failure implies `Q` the other way round,
and `Q` is transitive. -/
theorem orderedInsert_pairwise {α : Type} (r Q : α → α → Prop) (P : α → Prop)
    [DecidableRel r]
    (hrQ : ∀ a b, P a → P b → r a b → Q a b) (hnQ : ∀ a b, P a → P b → ¬ r a b → Q b a)
    (hQ : ∀ a b c, P a → P b → P c → Q a b → Q b c → Q a c) (a : α) (l : List α)
    (ha : P a) (hP : ∀ x ∈ l, P x) (hl : l.Pairwise Q) :
    (l.orderedInsert r a).Pairwise Q := by
  induction l with
  | nil => simp
  | cons b l ih =>
    rw [List.pairwise_cons] at hl
    have hb : P b := hP b (List.mem_cons_self _ _)
    have hPl : ∀ x ∈ l, P x := fun x hx => hP x (List.mem_cons_of_mem _ hx)
    by_cases hab : r a b
    · rw [List.orderedInsert, if_pos hab]
      refine List.Pairwise.cons ?_ (List.Pairwise.cons hl.1 hl.2)
      intro x hx
      rcases List.mem_cons.1 hx with rfl | hx
      · exact hrQ _ _ ha hb hab
      · exact hQ _ _ _ ha hb (hPl x hx) (hrQ _ _ ha hb hab) (hl.1 x hx)
    · rw [List.orderedInsert, if_neg hab]
      refine List.Pairwise.cons ?_ (ih hPl hl.2)
      intro x hx
      rcases List.mem_cons.1 ((List.perm_orderedInsert r a l).mem_iff.1 hx) with rfl | hx
      · exact hnQ _ _ ha hb hab
      · exact hl.1 x hx

theorem arraySort_pairwise_of {α β : Type} [Zero β] [LE β]
    [DecidableRel (fun (x y : β) => x ≤ y)] (cmp : α → α → β) (Q : α → α → Prop)
    (P : α → Prop)
    (hrQ : ∀ a b, P a → P b → cmp a b ≤ 0 → Q a b)
    (hnQ : ∀ a b, P a → P b → ¬ cmp a b ≤ 0 → Q b a)
    (hQ : ∀ a b c, P a → P b → P c → Q a b → Q b c → Q a c) (l : List α)
    (hP : ∀ x ∈ l, P x) : (arraySort cmp l).Pairwise Q := by
  unfold arraySort
  induction l with
  | nil => simp
  | cons a l ih =>
    rw [List.insertionSort]
    have hPl : ∀ x ∈ l, P x := fun x hx => hP x (List.mem_cons_of_mem _ hx)
    refine orderedInsert_pairwise _ Q P hrQ hnQ hQ a _ (hP a (List.mem_cons_self _ _)) ?_
      (ih hPl)
    intro x hx
    exact hPl x ((List.perm_insertionSort _ l).mem_iff.1 hx)

/-- In the sorted rows of a week no row with a null net precedes a row with
a net that is not null. -/
theorem sortedRows_null_last (rows : List RawRow) :
    (arraySort (fun a b => sortValue (compareRows a b)) rows).Pairwise
      (fun a b => a.net = none → b.net = none) := by
  apply arraySort_pairwise_of (fun a b => sortValue (compareRows a b))
    (fun a b => a.net = none → b.net = none) (fun _ => True)
  · intro a b _ _ hab ha
    exact rowsBefore_null_left a b ha hab
  · intro a b _ _ hab hb
    exact absurd (rowsBefore_null_right a b hb) hab
  · intro a b c _ _ _ h1 h2 ha
    exact h2 (h1 ha)
  · intro x _
    trivial

theorem computeSeason_ok (lc : String → String → ℤ) (season : Season) (out : SeasonComputed)
    (h : computeSeason lc season = .ok out) :
    mapRaising (computeWeek (playerMapOf (season.players.getD []))) (season.weeks.getD []) =
        .ok out.weeks ∧
      out.standings =
        standingsOf lc (playerMapOf (season.players.getD []))
          (totalsOf (season.players.getD []) out.weeks) := by
  unfold computeSeason at h
  simp only at h
  split at h
  · cases h
  · rename_i weeks hw
    cases h
    exact ⟨hw, rfl⟩

theorem computeWeek_ok (pm : List (String × Player)) (wk : Week) (cw : WeekComputed)
    (h : computeWeek pm wk = .ok cw) :
    cw.rows = weekRows pm wk ∧ ∃ n, wk.week = some n ∧ cw.id = toString n := by
  unfold computeWeek at h
  simp only at h
  split at h
  · rename_i n hn
    cases h
    exact ⟨rfl, n, hn, rfl⟩
  · cases h

/-- Every computed week is the image of a week of the document. -/
theorem computed_week_source (lc : String → String → ℤ) (season : Season)
    (out : SeasonComputed) (h : computeSeason lc season = .ok out) :
    List.Forall₂ (fun wk cw => cw.rows = weekRows (playerMapOf (season.players.getD [])) wk)
      (season.weeks.getD []) out.weeks := by
  have h1 := mapRaising_ok _ _ _ (computeSeason_ok lc season out h).1
  exact h1.imp (fun wk cw hwc => (computeWeek_ok _ wk cw hwc).1)

theorem computed_week_rows (lc : String → String → ℤ) (season : Season)
    (out : SeasonComputed) (h : computeSeason lc season = .ok out) (w : WeekComputed)
    (hw : w ∈ out.weeks) :
    ∃ wk ∈ season.weeks.getD [], w.rows = weekRows (playerMapOf (season.players.getD [])) wk := by
  have h1 := computed_week_source lc season out h
  generalize season.weeks.getD [] = ws at h1
  generalize out.weeks = cws at h1 hw
  induction h1 with
  | nil => cases hw
  | cons hab _ ih =>
    rcases List.mem_cons.1 hw with rfl | hmem
    · exact ⟨_, List.mem_cons_self _ _, hab⟩
    · obtain ⟨wk, hwk, hrows⟩ := ih hmem
      exact ⟨wk, List.mem_cons_of_mem _ hwk, hrows⟩

/-- `computeSeason` returns a value exactly when every week has a week number. -/
theorem computeSeason_returns_iff (lc : String → String → ℤ) (season : Season) :
    (∃ out, computeSeason lc season = .ok out) ↔
      ∀ wk ∈ season.weeks.getD [], wk.week ≠ none := by
  constructor
  · rintro ⟨out, h⟩ wk hwk hnone
    have herr : computeWeek (playerMapOf (season.players.getD [])) wk =
        .error (.referenceError "index") := by
      simp [computeWeek, hnone]
    obtain ⟨e0, he0⟩ := mapRaising_error _ _ wk _ hwk herr
    rw [(computeSeason_ok lc season out h).1] at he0
    cases he0
  · intro hall
    have htot : ∀ wk ∈ season.weeks.getD [],
        ∃ cw, computeWeek (playerMapOf (season.players.getD [])) wk = .ok cw := by
      intro wk hwk
      cases hn : wk.week with
      | none => exact absurd hn (hall wk hwk)
      | some n =>
        exact ⟨{ id := toString n, weekNumber := wk.week, date := wk.date,
                 rows := weekRows (playerMapOf (season.players.getD [])) wk },
          by simp [computeWeek, hn]⟩
    obtain ⟨weeks, hweeks⟩ := mapRaising_total _ _ htot
    exact ⟨{ weeks := weeks,
             standings := standingsOf lc (playerMapOf (season.players.getD []))
               (totalsOf (season.players.getD []) weeks) },
      by simp [computeSeason, hweeks]⟩

theorem weekRows_length (pm : List (String × Player)) (wk : Week) :
    (weekRows pm wk).length =
      (arraySort (fun a b => sortValue (compareRows a b))
        ((wk.results.getD []).map (rowOfResult pm))).length := by
  simp [weekRows, mapWithIndex_length]

theorem weekRows_getElem (pm : List (String × Player)) (wk : Week) (i : Nat)
    (h : i < (weekRows pm wk).length)
    (h2 : i < (arraySort (fun a b => sortValue (compareRows a b))
        ((wk.results.getD []).map (rowOfResult pm))).length) :
    (weekRows pm wk)[i] =
      rankRow (arraySort (fun a b => sortValue (compareRows a b))
        ((wk.results.getD []).map (rowOfResult pm)))[i] i := by
  have := mapWithIndex_getElem rankRow
    (arraySort (fun a b => sortValue (compareRows a b))
        ((wk.results.getD []).map (rowOfResult pm))) 0 i h h2
  simpa [weekRows] using this

end WeekProofs

section WeekClaims

open League

theorem computeNet_eq_none_iff (time : String) (handicap : JsNum) :
    computeNetSecondsPerKm time handicap = none ↔ parseTimeToSeconds time = none := by
  unfold computeNetSecondsPerKm
  cases parseTimeToSeconds time <;> simp

/-- Every ranked row is the row of one of the week's results, ranked at some
index. -/
theorem weekRows_mem (pm : List (String × Player)) (wk : Week) (r : Row)
    (hr : r ∈ weekRows pm wk) :
    ∃ res ∈ wk.results.getD [], ∃ i : Nat, r = rankRow (rowOfResult pm res) i := by
  obtain ⟨i, hi, hget⟩ := List.mem_iff_getElem.1 hr
  have hi2 : i < (arraySort (fun a b => sortValue (compareRows a b))
        ((wk.results.getD []).map (rowOfResult pm))).length := by
    rw [← weekRows_length]
    exact hi
  rw [weekRows_getElem pm wk i hi hi2] at hget
  have hmem : (arraySort (fun a b => sortValue (compareRows a b))
        ((wk.results.getD []).map (rowOfResult pm)))[i] ∈
      (wk.results.getD []).map (rowOfResult pm) :=
    (arraySort_perm (fun a b => sortValue (compareRows a b)) _).mem_iff.1 (List.getElem_mem hi2)
  obtain ⟨res, hres, hrow⟩ := List.mem_map.1 hmem
  exact ⟨res, hres, i, by rw [← hget, hrow]⟩

theorem weekRows_net_none_iff (pm : List (String × Player)) (wk : Week) (r : Row)
    (hr : r ∈ weekRows pm wk) : r.net = none ↔ parseTimeToSeconds r.time = none := by
  obtain ⟨res, -, i, rfl⟩ := weekRows_mem pm wk r hr
  simp only [rankRow, rowOfResult]
  exact computeNet_eq_none_iff _ _

theorem weekRows_null_last (pm : List (String × Player)) (wk : Week) (i j : Nat)
    (hi : i < (weekRows pm wk).length) (hj : j < (weekRows pm wk).length) (hij : i < j)
    (hnull : (weekRows pm wk)[i].net = none) : (weekRows pm wk)[j].net = none := by
  have hi2 := hi
  have hj2 := hj
  rw [weekRows_length] at hi2 hj2
  rw [weekRows_getElem pm wk i hi hi2] at hnull
  rw [weekRows_getElem pm wk j hj hj2]
  have hp := sortedRows_null_last ((wk.results.getD []).map (rowOfResult pm))
  exact List.pairwise_iff_getElem.1 hp i j hi2 hj2 hij hnull

theorem weekRows_position (pm : List (String × Player)) (wk : Week) (i : Nat)
    (hi : i < (weekRows pm wk).length) :
    (weekRows pm wk)[i].position = (i : ℤ) + 1 ∧
      (weekRows pm wk)[i].points = pointsForPosition (weekRows pm wk)[i].position := by
  have hi2 := hi
  rw [weekRows_length] at hi2
  rw [weekRows_getElem pm wk i hi hi2]
  simp [rankRow]

theorem weekRows_unparsed_last (pm : List (String × Player)) (wk : Week) (r1 r2 : Row)
    (h1 : r1 ∈ weekRows pm wk) (h2 : r2 ∈ weekRows pm wk)
    (hbad : parseTimeToSeconds r1.time = none) (hgood : parseTimeToSeconds r2.time ≠ none) :
    r2.position < r1.position := by
  have hn1 : r1.net = none := (weekRows_net_none_iff pm wk r1 h1).2 hbad
  have hn2 : r2.net ≠ none := fun h => hgood ((weekRows_net_none_iff pm wk r2 h2).1 h)
  obtain ⟨i, hi, hgi⟩ := List.mem_iff_getElem.1 h1
  obtain ⟨j, hj, hgj⟩ := List.mem_iff_getElem.1 h2
  have hpi := (weekRows_position pm wk i hi).1
  have hpj := (weekRows_position pm wk j hj).1
  rw [hgi] at hpi
  rw [hgj] at hpj
  rw [hpi, hpj]
  rcases Nat.lt_trichotomy i j with hlt | heq | hgt
  · have hnull := weekRows_null_last pm wk i j hi hj hlt (by rw [hgi]; exact hn1)
    rw [hgj] at hnull
    exact absurd hnull hn2
  · subst heq
    rw [hgi] at hgj
    subst hgj
    exact absurd hn1 hn2
  · omega

theorem rowsBefore_iff (a b : RawRow) (ha : GoodNet a.net) (hb : GoodNet b.net) :
    sortValue (compareRows a b) ≤ 0 ↔ NetsInOrder a.net b.net := by
  unfold compareRows
  cases hna : a.net with
  | none =>
    cases hnb : b.net with
    | none => simp [NetsInOrder, sortValue]
    | some y => norm_num [NetsInOrder, sortValue]
  | some x =>
    cases hnb : b.net with
    | none => norm_num [NetsInOrder, sortValue]
    | some y =>
      rw [hna] at ha
      rw [hnb] at hb
      exact sub_sortValue x y ha.1 hb.1 ha.2 hb.2

theorem netsInOrder_total (a b : Option JsNum) : NetsInOrder a b ∨ NetsInOrder b a := by
  cases a with
  | none =>
    cases b with
    | none => exact Or.inl trivial
    | some y => exact Or.inr trivial
  | some x =>
    cases b with
    | none => exact Or.inl trivial
    | some y => exact lt_false_total x y

theorem netsInOrder_trans (a b c : Option JsNum) (hb : GoodNet b) (h1 : NetsInOrder a b)
    (h2 : NetsInOrder b c) : NetsInOrder a c := by
  cases a with
  | none =>
    cases b with
    | none =>
      cases c with
      | none => trivial
      | some z => exact h2
    | some y => exact absurd h1 id
  | some x =>
    cases c with
    | none => trivial
    | some z =>
      cases b with
      | none => exact absurd h2 id
      | some y => exact lt_false_trans x y z hb.2 h1 h2

theorem rowOfResult_goodNet (pm : List (String × Player)) (res : Result)
    (hnn : (rowOfResult pm res).net ≠ some .nan) : GoodNet (rowOfResult pm res).net := by
  have hform : (rowOfResult pm res).net =
      computeNetSecondsPerKm res.time (rowOfResult pm res).hiFrozen := rfl
  rw [hform] at hnn ⊢
  unfold computeNetSecondsPerKm at hnn ⊢
  generalize parseTimeToSeconds res.time = p at hnn ⊢
  cases p with
  | none => trivial
  | some t =>
    refine ⟨toDouble_onGrid _, ?_⟩
    intro h
    exact hnn (congrArg some h)

/-- When no net of a week is `NaN`, the sorted rows are in the order of the
specification. -/
theorem weekRows_sorted_of_no_nan (pm : List (String × Player)) (wk : Week)
    (hnn : ∀ r ∈ weekRows pm wk, r.net ≠ some .nan) (i j : Nat)
    (hi : i < (weekRows pm wk).length) (hj : j < (weekRows pm wk).length) (hij : i < j) :
    NetsInOrder (weekRows pm wk)[i].net (weekRows pm wk)[j].net := by
  have hi2 := hi
  have hj2 := hj
  rw [weekRows_length] at hi2 hj2
  have hgood : ∀ a ∈ (wk.results.getD []).map (rowOfResult pm), GoodNet a.net := by
    intro a ha
    obtain ⟨res, -, rfl⟩ := List.mem_map.1 ha
    apply rowOfResult_goodNet
    have hs : rowOfResult pm res ∈ arraySort (fun a b => sortValue (compareRows a b))
        ((wk.results.getD []).map (rowOfResult pm)) :=
      (arraySort_perm _ _).mem_iff.2 ha
    obtain ⟨k, hk, hget⟩ := List.mem_iff_getElem.1 hs
    have hk2 : k < (weekRows pm wk).length := by
      rw [weekRows_length]
      exact hk
    have hrow := weekRows_getElem pm wk k hk2 hk
    have hmem : (weekRows pm wk)[k] ∈ weekRows pm wk := List.getElem_mem hk2
    have hne := hnn _ hmem
    rw [hrow, hget] at hne
    exact hne
  have hp := arraySort_pairwise_of (fun a b => sortValue (compareRows a b))
    (fun a b => NetsInOrder a.net b.net) (fun a => GoodNet a.net)
    (fun a b ha hb hab => (rowsBefore_iff a b ha hb).1 hab)
    (fun a b ha hb hab => (netsInOrder_total a.net b.net).resolve_left
      (fun h => hab ((rowsBefore_iff a b ha hb).2 h)))
    (fun a b c _ hb _ h1 h2 => netsInOrder_trans a.net b.net c.net hb h1 h2)
    ((wk.results.getD []).map (rowOfResult pm)) hgood
  rw [weekRows_getElem pm wk i hi hi2, weekRows_getElem pm wk j hj hj2]
  exact List.pairwise_iff_getElem.1 hp i j hi2 hj2 hij

/-- In every computed week in which no net is `NaN`, the rows are in ascending
order of net, with no null-net row before a numeric-net row. -/
theorem week_rows_sorted_of_no_nan (lc : String → String → ℤ) (season : Season)
    (out : SeasonComputed) (h : computeSeason lc season = .ok out) :
    ∀ w ∈ out.weeks, (∀ r ∈ w.rows, r.net ≠ some .nan) →
      ∀ (i j : Nat) (hi : i < w.rows.length) (hj : j < w.rows.length), i < j →
        NetsInOrder w.rows[i].net w.rows[j].net := by
  intro w hw
  obtain ⟨wk, -, hrows⟩ := computed_week_rows lc season out h w hw
  generalize w.rows = rows at hrows
  subst hrows
  intro hnn i j hi hj hij
  exact weekRows_sorted_of_no_nan _ wk hnn i j hi hj hij

/-- The part of the weekly ranking that holds for every document: in every
computed week no null-net row precedes a row whose net is not null, the
position of a row is its 1-based index, and a row whose time does not parse
has a position greater than that of every row of the week whose time
parses. -/
theorem week_rows_null_last (lc : String → String → ℤ) (season : Season)
    (out : SeasonComputed) (h : computeSeason lc season = .ok out) :
    ∀ w ∈ out.weeks,
      (∀ (i j : Nat) (hi : i < w.rows.length) (hj : j < w.rows.length), i < j →
        w.rows[i].net = none → w.rows[j].net = none) ∧
      (∀ (i : Nat) (hi : i < w.rows.length), w.rows[i].position = (i : ℤ) + 1) ∧
      (∀ r1 ∈ w.rows, ∀ r2 ∈ w.rows, parseTimeToSeconds r1.time = none →
        parseTimeToSeconds r2.time ≠ none → r2.position < r1.position) := by
  intro w hw
  obtain ⟨wk, -, hrows⟩ := computed_week_rows lc season out h w hw
  generalize w.rows = rows at hrows
  subst hrows
  refine ⟨fun i j hi hj hij => weekRows_null_last _ wk i j hi hj hij,
    fun i hi => (weekRows_position _ wk i hi).1,
    fun r1 h1 r2 h2 hbad hgood => weekRows_unparsed_last _ wk r1 r2 h1 h2 hbad hgood⟩

/-- C2: on a week with the times `20:05`, `1e400:-1e400` and `20:00` of three
unknown players the second net is `NaN`, the comparator returns `NaN` for it,
and the rows keep the order 241, `NaN`, 240 with positions 1, 2, 3: the row
with net 241 is ranked before the row with net 240. -/
theorem week_rows_nan_unsorted :
    computeSeason codeUnitCompare nanSeason = .ok nanComputed ∧
      ∃ w ∈ nanComputed.weeks, ∃ (i j : Nat) (hi : i < w.rows.length)
        (hj : j < w.rows.length), i < j ∧
        w.rows[i].net = some (.num 241) ∧ w.rows[j].net = some (.num 240) :=
  ⟨by decide!, _, List.mem_cons_self _ _, 0, 2, by decide, by decide, by decide, rfl, rfl⟩

/-- The same happens with the literal `Infinity`: the time
`Infinity:-Infinity` has the value `NaN`, which is not null. -/
theorem parseTime_nan_examples :
    parseTimeToSeconds "Infinity:-Infinity" = some .nan ∧
      parseTimeToSeconds "1e400:-1e400" = some .nan ∧
      parseTimeToSeconds "Infinity:00" = some .posInf ∧
      computeNetSecondsPerKm "Infinity:-Infinity" (.num 0) = some .nan ∧
      sortValue (compareRows ⟨"x", "Unknown runner", "20:05", .num 0, some (.num 241)⟩
        ⟨"y", "Unknown runner", "1e400:-1e400", .num 0, some .nan⟩) = 0 ∧
      sortValue (compareRows ⟨"y", "Unknown runner", "1e400:-1e400", .num 0, some .nan⟩
        ⟨"z", "Unknown runner", "20:00", .num 0, some (.num 240)⟩) = 0 ∧
      sortValue (compareRows ⟨"x", "Unknown runner", "20:05", .num 0, some (.num 241)⟩
        ⟨"z", "Unknown runner", "20:00", .num 0, some (.num 240)⟩) = 1 := by
  decide!

/-- C5: `pointsForPosition p` is `max(0, 10 - 2 (p - 1))`, that is 10, 8, 6, 4, 2
at positions 1 to 5 and 0 from position 6 on, it is never negative, and every
row of every computed week carries `pointsForPosition` of its own position. -/
theorem points_formula (lc : String → String → ℤ) (season : Season) (out : SeasonComputed)
    (h : computeSeason lc season = .ok out) :
    (∀ p : ℤ, 1 ≤ p → pointsForPosition p = max 0 (10 - 2 * (p - 1))) ∧
      pointsForPosition 1 = 10 ∧ pointsForPosition 2 = 8 ∧ pointsForPosition 3 = 6 ∧
      pointsForPosition 4 = 4 ∧ pointsForPosition 5 = 2 ∧
      (∀ p : ℤ, 6 ≤ p → pointsForPosition p = 0) ∧
      (∀ p : ℤ, 0 ≤ pointsForPosition p) ∧
      (∀ w ∈ out.weeks, ∀ r ∈ w.rows, r.points = pointsForPosition r.position) := by
  refine ⟨?_, by decide, by decide, by decide, by decide, by decide, ?_, ?_, ?_⟩
  · intro p _
    unfold pointsForPosition
    congr 1
    ring
  · intro p hp
    unfold pointsForPosition
    apply max_eq_left
    omega
  · intro p
    exact le_max_left _ _
  · intro w hw r hr
    obtain ⟨wk, -, hrows⟩ := computed_week_rows lc season out h w hw
    rw [hrows] at hr
    obtain ⟨res, -, i, rfl⟩ := weekRows_mem _ wk r hr
    rfl

/-- C5, witness: the sample season. -/
theorem points_formula_witness :
    computeSeason codeUnitCompare sampleSeason = .ok sampleComputed ∧
    ((∀ p : ℤ, 1 ≤ p → pointsForPosition p = max 0 (10 - 2 * (p - 1))) ∧
      pointsForPosition 1 = 10 ∧ pointsForPosition 2 = 8 ∧ pointsForPosition 3 = 6 ∧
      pointsForPosition 4 = 4 ∧ pointsForPosition 5 = 2 ∧
      (∀ p : ℤ, 6 ≤ p → pointsForPosition p = 0) ∧
      (∀ p : ℤ, 0 ≤ pointsForPosition p) ∧
      (∀ w ∈ sampleComputed.weeks, ∀ r ∈ w.rows, r.points = pointsForPosition r.position)) :=
  ⟨by decide!, points_formula codeUnitCompare sampleSeason sampleComputed (by decide!)⟩

/-- C10: on a season whose only week has no week number, `computeSeason`
raises `ReferenceError: index is not defined` instead of returning a week with
id `"0"`. -/
theorem computeSeason_unnumbered_week_raises (lc : String → String → ℤ) :
    computeSeason lc unnumberedSeason = .error (.referenceError "index") := by
  rfl

end WeekClaims

/-! ## The association-list model of `Map` -/

section MapFacts

variable {κ ν : Type} [DecidableEq κ]

theorem mapGet_mapSet (m : List (κ × ν)) (k k1 : κ) (v : ν) :
    mapGet (mapSet m k v) k1 = if k = k1 then some v else mapGet m k1 := by
  induction m with
  | nil => simp [mapSet, mapGet]
  | cons e m ih =>
    obtain ⟨k0, v0⟩ := e
    by_cases h0 : k0 = k
    · subst h0
      by_cases h1 : k0 = k1 <;> simp [mapSet, mapGet, h1]
    · by_cases h1 : k0 = k1
      · subst h1
        have : ¬ k = k0 := fun h => h0 h.symm
        simp [mapSet, mapGet, h0, this]
      · simp [mapSet, mapGet, h0, h1, ih]

theorem mapGet_eq_none_iff (m : List (κ × ν)) (k : κ) :
    mapGet m k = none ↔ k ∉ m.map Prod.fst := by
  induction m with
  | nil => simp [mapGet]
  | cons e m ih =>
    obtain ⟨k0, v0⟩ := e
    by_cases h0 : k0 = k
    · simp [mapGet, h0]
    · have : ¬ k = k0 := fun h => h0 h.symm
      simp [mapGet, h0, ih, this]

theorem mapGet_mem (m : List (κ × ν)) (k : κ) (v : ν) (h : mapGet m k = some v) :
    (k, v) ∈ m := by
  induction m with
  | nil => simp [mapGet] at h
  | cons e m ih =>
    obtain ⟨k0, v0⟩ := e
    by_cases h0 : k0 = k
    · simp [mapGet, h0] at h
      simp [h0, h]
    · simp [mapGet, h0] at h
      exact List.mem_cons_of_mem _ (ih h)

theorem mapGet_of_mem (m : List (κ × ν)) (hnd : (m.map Prod.fst).Nodup) (k : κ) (v : ν)
    (h : (k, v) ∈ m) : mapGet m k = some v := by
  induction m with
  | nil => cases h
  | cons e m ih =>
    obtain ⟨k0, v0⟩ := e
    simp only [List.map_cons, List.nodup_cons] at hnd
    rcases List.mem_cons.1 h with heq | hmem
    · cases heq
      simp [mapGet]
    · have hne : k0 ≠ k := by
        rintro rfl
        exact hnd.1 (List.mem_map.2 ⟨(k0, v), hmem, rfl⟩)
      simp [mapGet, hne, ih hnd.2 hmem]

theorem mapSet_keys (m : List (κ × ν)) (k : κ) (v : ν) :
    (mapSet m k v).map Prod.fst =
      if k ∈ m.map Prod.fst then m.map Prod.fst else m.map Prod.fst ++ [k] := by
  induction m with
  | nil => simp [mapSet]
  | cons e m ih =>
    obtain ⟨k0, v0⟩ := e
    by_cases h0 : k0 = k
    · simp [mapSet, h0]
    · have : ¬ k = k0 := fun h => h0 h.symm
      simp only [mapSet, h0, if_false, List.map_cons, ih, List.mem_cons, this, false_or]
      split <;> simp

theorem mapSet_mem_keys (m : List (κ × ν)) (k k1 : κ) (v : ν) :
    k1 ∈ (mapSet m k v).map Prod.fst ↔ k1 ∈ m.map Prod.fst ∨ k1 = k := by
  rw [mapSet_keys]
  split
  · constructor
    · exact Or.inl
    · rintro (h | rfl)
      · exact h
      · assumption
  · simp

theorem mapSet_nodup (m : List (κ × ν)) (k : κ) (v : ν) (hnd : (m.map Prod.fst).Nodup) :
    ((mapSet m k v).map Prod.fst).Nodup := by
  rw [mapSet_keys]
  split
  · exact hnd
  · rename_i hk
    rw [List.nodup_append]
    refine ⟨hnd, List.nodup_singleton k, ?_⟩
    intro x hx hx1
    rw [List.mem_singleton] at hx1
    subst hx1
    exact hk hx

theorem mapOfEntries_fold_nodup (es : List (κ × ν)) (acc : List (κ × ν))
    (hnd : (acc.map Prod.fst).Nodup) :
    ((es.foldl (fun m e => mapSet m e.1 e.2) acc).map Prod.fst).Nodup := by
  induction es generalizing acc with
  | nil => exact hnd
  | cons e es ih => exact ih _ (mapSet_nodup acc e.1 e.2 hnd)

theorem mapOfEntries_fold_mem_keys (es : List (κ × ν)) (acc : List (κ × ν)) (k : κ) :
    k ∈ (es.foldl (fun m e => mapSet m e.1 e.2) acc).map Prod.fst ↔
      k ∈ acc.map Prod.fst ∨ k ∈ es.map Prod.fst := by
  induction es generalizing acc with
  | nil => simp
  | cons e es ih =>
    simp only [List.foldl_cons, ih, mapSet_mem_keys, List.map_cons, List.mem_cons]
    tauto

theorem mapOfEntries_fold_get (es : List (κ × ν)) (acc : List (κ × ν)) (k : κ) (v : ν)
    (h : mapGet (es.foldl (fun m e => mapSet m e.1 e.2) acc) k = some v) :
    (k, v) ∈ es ∨ mapGet acc k = some v := by
  induction es generalizing acc with
  | nil => exact Or.inr h
  | cons e es ih =>
    rcases ih _ h with hmem | hget
    · exact Or.inl (List.mem_cons_of_mem _ hmem)
    · rw [mapGet_mapSet] at hget
      split at hget
      · rename_i hk
        cases hget
        exact Or.inl (by rw [← hk]; exact List.mem_cons_self _ _)
      · exact Or.inr hget

theorem mapOfEntries_nodup (es : List (κ × ν)) : ((mapOfEntries es).map Prod.fst).Nodup :=
  mapOfEntries_fold_nodup es [] List.nodup_nil

theorem mapOfEntries_mem_keys (es : List (κ × ν)) (k : κ) :
    k ∈ (mapOfEntries es).map Prod.fst ↔ k ∈ es.map Prod.fst := by
  unfold mapOfEntries
  rw [mapOfEntries_fold_mem_keys]
  simp

theorem mapOfEntries_get (es : List (κ × ν)) (k : κ) (v : ν)
    (h : mapGet (mapOfEntries es) k = some v) : (k, v) ∈ es := by
  rcases mapOfEntries_fold_get es [] k v h with hmem | hget
  · exact hmem
  · simp [mapGet] at hget

end MapFacts

/-! ## Rows and the roster -/

section RosterProofs

open League

theorem playerMap_get_some (players : List Player) (id : String) (p : Player)
    (h : mapGet (playerMapOf players) id = some p) : p ∈ players ∧ p.id = id := by
  have hmem := mapOfEntries_get _ id p h
  obtain ⟨q, hq, heq⟩ := List.mem_map.1 hmem
  cases heq
  exact ⟨hq, rfl⟩

theorem playerMap_get_none (players : List Player) (id : String)
    (h : mapGet (playerMapOf players) id = none) : ∀ p ∈ players, p.id ≠ id := by
  intro p hp hid
  rw [mapGet_eq_none_iff, playerMapOf, mapOfEntries_mem_keys] at h
  apply h
  rw [List.map_map]
  exact List.mem_map.2 ⟨p, hp, hid⟩

/-- The row of a result: the name and HI of a roster player, or the defaults. -/
theorem rowOfResult_roster (players : List Player) (res : Result) :
    (∃ p ∈ players, p.id = res.playerId ∧
        (rowOfResult (playerMapOf players) res).hiFrozen = p.hi ∧
        (rowOfResult (playerMapOf players) res).runner = p.name) ∨
      ((∀ p ∈ players, p.id ≠ res.playerId) ∧
        (rowOfResult (playerMapOf players) res).hiFrozen = .num 0 ∧
        (rowOfResult (playerMapOf players) res).runner = "Unknown runner") := by
  cases hget : mapGet (playerMapOf players) res.playerId with
  | none =>
    right
    exact ⟨playerMap_get_none players _ hget, by simp [rowOfResult, hget],
      by simp [rowOfResult, hget]⟩
  | some p =>
    left
    obtain ⟨hp, hid⟩ := playerMap_get_some players _ p hget
    exact ⟨p, hp, hid, by simp [rowOfResult, hget], by simp [rowOfResult, hget]⟩

theorem computeNet_formula (time : String) (handicap : JsNum) :
    computeNetSecondsPerKm time handicap =
      (parseTimeToSeconds time).map
        (fun totalSeconds => Double.sub (Double.div totalSeconds (.num 5)) handicap) := by
  unfold computeNetSecondsPerKm
  cases parseTimeToSeconds time <;> rfl

theorem isNaN_iff (x : JsNum) : x.isNaN = true ↔ x = .nan := by
  cases x <;> simp [JsNum.isNaN]

/-- The value of `parseTimeToSeconds` on a time with exactly one colon. -/
theorem parseTime_pair (time : String) (mm ss : List Char)
    (hs : splitChars ':' time.data = [mm, ss]) :
    parseTimeToSeconds time =
      if (toNumber mm).isNaN || (toNumber ss).isNaN then none
      else some (Double.add (Double.mul (toNumber mm) (.num 60)) (toNumber ss)) := by
  have hne : time.data.isEmpty = false := by
    cases hd : time.data with
    | nil =>
      rw [hd] at hs
      simp [splitChars] at hs
    | cons c cs => rfl
  unfold parseTimeToSeconds
  simp [hne, hs]

/-- The times that `parseTimeToSeconds` rejects: the empty string, a string
without exactly one colon, and a string with a part whose `Number` is `NaN`. -/
theorem parseTime_none_iff (time : String) :
    parseTimeToSeconds time = none ↔
      (time.data = [] ∨ (splitChars ':' time.data).length ≠ 2 ∨
        ∃ part ∈ splitChars ':' time.data, toNumber part = .nan) := by
  by_cases hemp : time.data = []
  · simp [parseTimeToSeconds, hemp]
  · by_cases hlen : (splitChars ':' time.data).length = 2
    · obtain ⟨mm, ss, hs⟩ := List.length_eq_two.1 hlen
      rw [parseTime_pair time mm ss hs, hs]
      by_cases h1 : (toNumber mm).isNaN = true
      · simp [h1, hemp, (isNaN_iff _).1 h1, JsNum.isNaN]
      · by_cases h2 : (toNumber ss).isNaN = true
        · simp [h2, hemp, (isNaN_iff _).1 h2, JsNum.isNaN]
        · have h3 : ¬ toNumber mm = .nan := fun h => h1 ((isNaN_iff _).2 h)
          have h4 : ¬ toNumber ss = .nan := fun h => h2 ((isNaN_iff _).2 h)
          simp [h1, h2, hemp, h3, h4]
    · have hne : time.data.isEmpty = false := by
        cases hd : time.data with
        | nil => exact absurd hd hemp
        | cons c cs => rfl
      simp [parseTimeToSeconds, hemp, hlen, hne]

theorem parseTime_some (time : String) (mm ss : List Char)
    (hs : splitChars ':' time.data = [mm, ss]) (h1 : toNumber mm ≠ .nan)
    (h2 : toNumber ss ≠ .nan) :
    parseTimeToSeconds time =
      some (Double.add (Double.mul (toNumber mm) (.num 60)) (toNumber ss)) := by
  rw [parseTime_pair time mm ss hs]
  have h3 : (toNumber mm).isNaN = false := by
    cases h : (toNumber mm).isNaN with
    | false => rfl
    | true => exact absurd ((isNaN_iff _).1 h) h1
  have h4 : (toNumber ss).isNaN = false := by
    cases h : (toNumber ss).isNaN with
    | false => rfl
    | true => exact absurd ((isNaN_iff _).1 h) h2
  simp [h3, h4]

theorem weekRows_perm (pm : List (String × Player)) (wk : Week) :
    ((weekRows pm wk).map (fun r => (r.playerId, r.time))).Perm
      ((wk.results.getD []).map (fun res => (res.playerId, res.time))) := by
  unfold weekRows
  simp only
  rw [mapWithIndex_map rankRow (fun r => (r.playerId, r.time))
    (fun r => (r.playerId, r.time)) (fun _ _ => rfl)]
  have h1 := (arraySort_perm (fun a b => sortValue (compareRows a b))
    ((wk.results.getD []).map (rowOfResult pm))).map (fun r => (r.playerId, r.time))
  rw [List.map_map] at h1
  exact h1

/-- C7: the rows of a computed week are those of the week's results, one for
one.  The net of a row is the total seconds of its time divided by 5 minus its
frozen HI, in binary64 arithmetic, and it is null exactly when the time does
not parse: when the time is empty, has not exactly one colon, or has a part
whose `Number` is `NaN`; otherwise the total seconds are
`Number(minutes) * 60 + Number(seconds)`.  The frozen HI and the runner are
those of a roster player with the row's player id, or 0 and "Unknown runner"
when the roster has no such player. -/
theorem row_net_formula (lc : String → String → ℤ) (season : Season) (out : SeasonComputed)
    (h : computeSeason lc season = .ok out) :
    List.Forall₂
      (fun wk cw =>
        (cw.rows.map (fun r => (r.playerId, r.time))).Perm
            ((wk.results.getD []).map (fun res => (res.playerId, res.time))) ∧
          ∀ r ∈ cw.rows,
            r.net = (parseTimeToSeconds r.time).map
                (fun totalSeconds =>
                  Double.sub (Double.div totalSeconds (.num 5)) r.hiFrozen) ∧
              (r.net = none ↔ parseTimeToSeconds r.time = none) ∧
              (parseTimeToSeconds r.time = none ↔
                (r.time.data = [] ∨ (splitChars ':' r.time.data).length ≠ 2 ∨
                  ∃ part ∈ splitChars ':' r.time.data, toNumber part = .nan)) ∧
              (∀ mm ss, splitChars ':' r.time.data = [mm, ss] → toNumber mm ≠ .nan →
                toNumber ss ≠ .nan →
                parseTimeToSeconds r.time =
                  some (Double.add (Double.mul (toNumber mm) (.num 60)) (toNumber ss))) ∧
              ((∃ p ∈ season.players.getD [], p.id = r.playerId ∧ r.hiFrozen = p.hi ∧
                  r.runner = p.name) ∨
                ((∀ p ∈ season.players.getD [], p.id ≠ r.playerId) ∧ r.hiFrozen = .num 0 ∧
                  r.runner = "Unknown runner")))
      (season.weeks.getD []) out.weeks := by
  refine (computed_week_source lc season out h).imp ?_
  intro wk cw hrows
  rw [hrows]
  refine ⟨weekRows_perm _ wk, ?_⟩
  intro r hr
  have hnone := weekRows_net_none_iff _ wk r hr
  refine ⟨?_, hnone, parseTime_none_iff r.time,
    fun mm ss hs h1 h2 => parseTime_some r.time mm ss hs h1 h2, ?_⟩
  · obtain ⟨res, -, i, rfl⟩ := weekRows_mem _ wk r hr
    simp only [rankRow, rowOfResult]
    exact computeNet_formula _ _
  · obtain ⟨res, -, i, rfl⟩ := weekRows_mem _ wk r hr
    exact rowOfResult_roster (season.players.getD []) res

/-- C7, witness: a season whose times exercise the parser. -/
theorem row_net_formula_witness :
    computeSeason codeUnitCompare parserSeason = .ok parserComputed ∧
    List.Forall₂
      (fun wk cw =>
        (cw.rows.map (fun r => (r.playerId, r.time))).Perm
            ((wk.results.getD []).map (fun res => (res.playerId, res.time))) ∧
          ∀ r ∈ cw.rows,
            r.net = (parseTimeToSeconds r.time).map
                (fun totalSeconds =>
                  Double.sub (Double.div totalSeconds (.num 5)) r.hiFrozen) ∧
              (r.net = none ↔ parseTimeToSeconds r.time = none) ∧
              (parseTimeToSeconds r.time = none ↔
                (r.time.data = [] ∨ (splitChars ':' r.time.data).length ≠ 2 ∨
                  ∃ part ∈ splitChars ':' r.time.data, toNumber part = .nan)) ∧
              (∀ mm ss, splitChars ':' r.time.data = [mm, ss] → toNumber mm ≠ .nan →
                toNumber ss ≠ .nan →
                parseTimeToSeconds r.time =
                  some (Double.add (Double.mul (toNumber mm) (.num 60)) (toNumber ss))) ∧
              ((∃ p ∈ parserSeason.players.getD [], p.id = r.playerId ∧ r.hiFrozen = p.hi ∧
                  r.runner = p.name) ∨
                ((∀ p ∈ parserSeason.players.getD [], p.id ≠ r.playerId) ∧
                  r.hiFrozen = .num 0 ∧ r.runner = "Unknown runner")))
      (parserSeason.weeks.getD []) parserComputed.weeks :=
  ⟨by decide!, row_net_formula codeUnitCompare parserSeason parserComputed (by decide!)⟩

end RosterProofs

/-! ## The season standings -/

section StandingsProofs

open League

theorem addRow_get (t : List (String × ℤ)) (row : Row) (id : String) :
    (mapGet (addRow t row) id).getD 0 =
      (mapGet t id).getD 0 + (if row.playerId = id then row.points else 0) := by
  by_cases hs : (mapGet t row.playerId).isSome = true
  · have h1 : (if (!mapHas t row.playerId) = true then mapSet t row.playerId 0 else t) = t := by
      simp [mapHas, hs]
    unfold addRow
    simp only [h1, mapGet_mapSet]
    by_cases hid : row.playerId = id
    · subst hid
      simp
    · simp [hid]
  · have h1 : (if (!mapHas t row.playerId) = true then mapSet t row.playerId 0 else t) =
        mapSet t row.playerId 0 := by
      simp [mapHas, hs]
    have h2 : mapGet t row.playerId = none := by
      cases hget : mapGet t row.playerId with
      | none => rfl
      | some v => simp [hget] at hs
    unfold addRow
    simp only [h1, mapGet_mapSet]
    by_cases hid : row.playerId = id
    · subst hid
      simp [h2]
    · simp [hid]

theorem addRow_mem_keys (t : List (String × ℤ)) (row : Row) (id : String) :
    id ∈ (addRow t row).map Prod.fst ↔ id ∈ t.map Prod.fst ∨ id = row.playerId := by
  unfold addRow
  simp only
  split
  · simp only [mapSet_mem_keys]
    tauto
  · simp only [mapSet_mem_keys]

theorem addRow_nodup (t : List (String × ℤ)) (row : Row) (hnd : (t.map Prod.fst).Nodup) :
    ((addRow t row).map Prod.fst).Nodup := by
  unfold addRow
  simp only
  split
  · exact mapSet_nodup _ _ _ (mapSet_nodup _ _ _ hnd)
  · exact mapSet_nodup _ _ _ hnd

theorem rows_fold_get (rows : List Row) (t : List (String × ℤ)) (id : String) :
    (mapGet (rows.foldl addRow t) id).getD 0 =
      (mapGet t id).getD 0 +
        ((rows.filter (fun row => row.playerId = id)).map (fun row => row.points)).sum := by
  induction rows generalizing t with
  | nil => simp
  | cons r rows ih =>
    rw [List.foldl_cons, ih, addRow_get]
    by_cases hid : r.playerId = id
    · simp [List.filter_cons, hid, add_assoc]
    · simp [List.filter_cons, hid]

theorem rows_fold_mem_keys (rows : List Row) (t : List (String × ℤ)) (id : String) :
    id ∈ (rows.foldl addRow t).map Prod.fst ↔
      id ∈ t.map Prod.fst ∨ ∃ r ∈ rows, r.playerId = id := by
  induction rows generalizing t with
  | nil => simp
  | cons r rows ih =>
    rw [List.foldl_cons, ih, addRow_mem_keys]
    simp only [List.mem_cons, exists_eq_or_imp]
    constructor
    · rintro ((h | h) | h)
      · exact Or.inl h
      · exact Or.inr (Or.inl h.symm)
      · exact Or.inr (Or.inr h)
    · rintro (h | h | h)
      · exact Or.inl (Or.inl h)
      · exact Or.inl (Or.inr h.symm)
      · exact Or.inr h

theorem rows_fold_nodup (rows : List Row) (t : List (String × ℤ))
    (hnd : (t.map Prod.fst).Nodup) : ((rows.foldl addRow t).map Prod.fst).Nodup := by
  induction rows generalizing t with
  | nil => exact hnd
  | cons r rows ih => exact ih _ (addRow_nodup t r hnd)

theorem weeks_fold_get (weeks : List WeekComputed) (t : List (String × ℤ)) (id : String) :
    (mapGet (weeks.foldl (fun totals week => week.rows.foldl addRow totals) t) id).getD 0 =
      (mapGet t id).getD 0 + seasonPointsOf id weeks := by
  induction weeks generalizing t with
  | nil => simp [seasonPointsOf]
  | cons w weeks ih =>
    rw [List.foldl_cons, ih, rows_fold_get]
    simp [seasonPointsOf, weekPointsOf, add_assoc]

theorem weeks_fold_mem_keys (weeks : List WeekComputed) (t : List (String × ℤ))
    (id : String) :
    id ∈ (weeks.foldl (fun totals week => week.rows.foldl addRow totals) t).map Prod.fst ↔
      id ∈ t.map Prod.fst ∨ ∃ w ∈ weeks, ∃ r ∈ w.rows, r.playerId = id := by
  induction weeks generalizing t with
  | nil => simp
  | cons w weeks ih =>
    rw [List.foldl_cons, ih, rows_fold_mem_keys]
    simp only [List.mem_cons, exists_eq_or_imp]
    exact or_assoc

theorem weeks_fold_nodup (weeks : List WeekComputed) (t : List (String × ℤ))
    (hnd : (t.map Prod.fst).Nodup) :
    ((weeks.foldl (fun totals week => week.rows.foldl addRow totals) t).map Prod.fst).Nodup := by
  induction weeks generalizing t with
  | nil => exact hnd
  | cons w weeks ih => exact ih _ (rows_fold_nodup w.rows t hnd)

theorem totalsOf_nodup (players : List Player) (weeks : List WeekComputed) :
    ((totalsOf players weeks).map Prod.fst).Nodup :=
  weeks_fold_nodup weeks _ (mapOfEntries_nodup _)

theorem totalsOf_mem_keys (players : List Player) (weeks : List WeekComputed) (id : String) :
    id ∈ (totalsOf players weeks).map Prod.fst ↔
      id ∈ players.map (fun p => p.id) ∨ ∃ w ∈ weeks, ∃ r ∈ w.rows, r.playerId = id := by
  unfold totalsOf
  rw [weeks_fold_mem_keys, mapOfEntries_mem_keys, List.map_map]
  rfl

theorem totalsOf_get (players : List Player) (weeks : List WeekComputed) (id : String) :
    (mapGet (totalsOf players weeks) id).getD 0 = seasonPointsOf id weeks := by
  unfold totalsOf
  rw [weeks_fold_get]
  have h0 : (mapGet (mapOfEntries (players.map (fun player => (player.id, (0 : ℤ))))) id).getD 0
      = 0 := by
    cases hget : mapGet (mapOfEntries (players.map (fun player => (player.id, (0 : ℤ))))) id with
    | none => rfl
    | some v =>
      have hmem := mapOfEntries_get _ id v hget
      obtain ⟨p, -, heq⟩ := List.mem_map.1 hmem
      cases heq
      rfl
  rw [h0, zero_add]

theorem standingsOf_perm (lc : String → String → ℤ) (pm : List (String × Player))
    (totals : List (String × ℤ)) :
    ((standingsOf lc pm totals).map (fun e => (e.playerId, e.points))).Perm totals := by
  unfold standingsOf
  rw [mapWithIndex_map placeEntry (fun e => (e.playerId, e.points))
    (fun e => (e.playerId, e.points)) (fun _ _ => rfl)]
  have h1 := (arraySort_perm (compareEntries lc) (totals.map (entryOf pm))).map
    (fun e => (e.playerId, e.points))
  rw [List.map_map] at h1
  have h2 : ((fun (e : RawEntry) => (e.playerId, e.points)) ∘ entryOf pm) = id := by
    funext e
    rfl
  rw [h2, List.map_id] at h1
  exact h1

end StandingsProofs

section StandingsClaims

open League

theorem week_ids_iff (pm : List (String × Player)) (wk : Week) (id : String) :
    (∃ r ∈ weekRows pm wk, r.playerId = id) ↔ ∃ res ∈ wk.results.getD [], res.playerId = id := by
  have hp := (weekRows_perm pm wk).map Prod.fst
  rw [List.map_map, List.map_map] at hp
  have hmem := hp.mem_iff (a := id)
  simp only [List.mem_map, Function.comp] at hmem
  exact hmem

theorem computed_ids_iff (lc : String → String → ℤ) (season : Season) (out : SeasonComputed)
    (h : computeSeason lc season = .ok out) (id : String) :
    (∃ w ∈ out.weeks, ∃ r ∈ w.rows, r.playerId = id) ↔
      ∃ wk ∈ season.weeks.getD [], ∃ res ∈ wk.results.getD [], res.playerId = id := by
  have hF := computed_week_source lc season out h
  generalize season.weeks.getD [] = ws at hF
  generalize out.weeks = cws at hF
  induction hF with
  | nil => simp
  | cons hab _ ih =>
    simp only [List.mem_cons, exists_eq_or_imp]
    rw [hab, week_ids_iff]
    exact or_congr Iff.rfl ih

theorem compareEntries_le_iff (lc : String → String → ℤ) (a b : RawEntry) :
    compareEntries lc a b ≤ 0 ↔
      (b.points = a.points ∧ lc a.runner b.runner ≤ 0) ∨ b.points < a.points := by
  unfold compareEntries
  split
  · rename_i heq
    simp [heq]
  · rename_i hne
    constructor
    · intro hle
      right
      omega
    · rintro (⟨heq, -⟩ | hlt)
      · exact absurd heq hne
      · omega

theorem compareEntries_total (lc : String → String → ℤ) (hc : ConsistentComparator lc)
    (a b : RawEntry) : compareEntries lc a b ≤ 0 ∨ compareEntries lc b a ≤ 0 := by
  rw [compareEntries_le_iff, compareEntries_le_iff]
  rcases lt_trichotomy a.points b.points with hlt | heq | hgt
  · exact Or.inr (Or.inr hlt)
  · rcases hc.1 a.runner b.runner with h1 | h1
    · exact Or.inl (Or.inl ⟨heq.symm, h1⟩)
    · exact Or.inr (Or.inl ⟨heq, h1⟩)
  · exact Or.inl (Or.inr hgt)

theorem compareEntries_trans (lc : String → String → ℤ) (hc : ConsistentComparator lc)
    (a b c : RawEntry) (h1 : compareEntries lc a b ≤ 0) (h2 : compareEntries lc b c ≤ 0) :
    compareEntries lc a c ≤ 0 := by
  rw [compareEntries_le_iff] at h1 h2 ⊢
  rcases h1 with ⟨e1, l1⟩ | l1 <;> rcases h2 with ⟨e2, l2⟩ | l2
  · exact Or.inl ⟨e2.trans e1, hc.2 _ _ _ l1 l2⟩
  · exact Or.inr (by omega)
  · exact Or.inr (by omega)
  · exact Or.inr (by omega)

theorem standingsOf_length (lc : String → String → ℤ) (pm : List (String × Player))
    (totals : List (String × ℤ)) :
    (standingsOf lc pm totals).length =
      (arraySort (compareEntries lc) (totals.map (entryOf pm))).length := by
  simp [standingsOf, mapWithIndex_length]

theorem standingsOf_getElem (lc : String → String → ℤ) (pm : List (String × Player))
    (totals : List (String × ℤ)) (i : Nat) (h : i < (standingsOf lc pm totals).length)
    (h2 : i < (arraySort (compareEntries lc) (totals.map (entryOf pm))).length) :
    (standingsOf lc pm totals)[i] =
      placeEntry (arraySort (compareEntries lc) (totals.map (entryOf pm)))[i] i := by
  have := mapWithIndex_getElem placeEntry
    (arraySort (compareEntries lc) (totals.map (entryOf pm))) 0 i h h2
  simpa [standingsOf] using this

theorem standingsOf_sorted (lc : String → String → ℤ) (hc : ConsistentComparator lc)
    (pm : List (String × Player)) (totals : List (String × ℤ)) :
    (∀ (i j : Nat) (hi : i < (standingsOf lc pm totals).length)
        (hj : j < (standingsOf lc pm totals).length), i < j →
        (standingsOf lc pm totals)[j].points ≤ (standingsOf lc pm totals)[i].points ∧
        ((standingsOf lc pm totals)[i].points = (standingsOf lc pm totals)[j].points →
          lc (standingsOf lc pm totals)[i].runner (standingsOf lc pm totals)[j].runner ≤ 0)) ∧
      (∀ (i : Nat) (hi : i < (standingsOf lc pm totals).length),
        (standingsOf lc pm totals)[i].position = (i : ℤ) + 1) := by
  constructor
  · intro i j hi hj hij
    have hi2 := hi
    have hj2 := hj
    rw [standingsOf_length] at hi2 hj2
    rw [standingsOf_getElem lc pm totals i hi hi2, standingsOf_getElem lc pm totals j hj hj2]
    have hp := arraySort_pairwise (compareEntries lc) (compareEntries_total lc hc)
      (compareEntries_trans lc hc) (totals.map (entryOf pm))
    have hle := (compareEntries_le_iff lc _ _).1
      (List.pairwise_iff_getElem.1 hp i j hi2 hj2 hij)
    simp only [placeEntry]
    rcases hle with ⟨heq, hl⟩ | hlt
    · exact ⟨le_of_eq heq, fun _ => hl⟩
    · exact ⟨le_of_lt hlt, fun h => absurd h (ne_of_gt hlt)⟩
  · intro i hi
    have hi2 := hi
    rw [standingsOf_length] at hi2
    rw [standingsOf_getElem lc pm totals i hi hi2]
    simp [placeEntry]

/-- C3: the standings hold exactly one entry for every player id of the roster
or of some result; the points of an entry are the sum of the points of that
player's rows over all computed weeks, 0 for a player with no result; and a
second computation of the same document gives the same standings. -/
theorem standings_totals (lc : String → String → ℤ) (season : Season) (out : SeasonComputed)
    (h : computeSeason lc season = .ok out) :
    (out.standings.map (fun e => e.playerId)).Nodup ∧
      (∀ id, id ∈ out.standings.map (fun e => e.playerId) ↔
        (id ∈ (season.players.getD []).map (fun p => p.id) ∨
          ∃ wk ∈ season.weeks.getD [], ∃ res ∈ wk.results.getD [], res.playerId = id)) ∧
      (∀ e ∈ out.standings, e.points = seasonPointsOf e.playerId out.weeks) ∧
      (∀ e ∈ out.standings,
        (∀ wk ∈ season.weeks.getD [], ∀ res ∈ wk.results.getD [], res.playerId ≠ e.playerId) →
          e.points = 0) ∧
      (∀ out2, computeSeason lc season = .ok out2 → out2.standings = out.standings) := by
  have hst := (computeSeason_ok lc season out h).2
  have hperm := standingsOf_perm lc (playerMapOf (season.players.getD []))
    (totalsOf (season.players.getD []) out.weeks)
  rw [← hst] at hperm
  have hkeys := hperm.map Prod.fst
  rw [List.map_map] at hkeys
  have hfun : (Prod.fst ∘ fun (e : StandingsEntry) => (e.playerId, e.points)) =
      fun e => e.playerId := rfl
  rw [hfun] at hkeys
  have hpoints : ∀ e ∈ out.standings, e.points = seasonPointsOf e.playerId out.weeks := by
    intro e he
    have hmem : (e.playerId, e.points) ∈ totalsOf (season.players.getD []) out.weeks :=
      hperm.mem_iff.1 (List.mem_map.2 ⟨e, he, rfl⟩)
    have hget := mapGet_of_mem _ (totalsOf_nodup _ _) _ _ hmem
    have hsum := totalsOf_get (season.players.getD []) out.weeks e.playerId
    rw [hget] at hsum
    exact hsum
  refine ⟨hkeys.nodup_iff.2 (totalsOf_nodup _ _), ?_, hpoints, ?_, ?_⟩
  · intro id
    rw [hkeys.mem_iff, totalsOf_mem_keys, computed_ids_iff lc season out h]
  · intro e he hnone
    rw [hpoints e he]
    have hno : ∀ w ∈ out.weeks, weekPointsOf e.playerId w = 0 := by
      intro w hw
      unfold weekPointsOf
      have hfil : w.rows.filter (fun row => decide (row.playerId = e.playerId)) = [] := by
        rw [List.filter_eq_nil_iff]
        intro r hr hdec
        have hid : r.playerId = e.playerId := by simpa using hdec
        obtain ⟨wk, hwk, res, hres, hrid⟩ :=
          (computed_ids_iff lc season out h e.playerId).1 ⟨w, hw, r, hr, hid⟩
        exact hnone wk hwk res hres hrid
      rw [hfil]
      rfl
    unfold seasonPointsOf
    rw [List.map_congr_left hno]
    simp
  · intro out2 h2
    rw [h] at h2
    cases h2
    rfl

/-- C3, witness: the sample season. -/
theorem standings_totals_witness :
    computeSeason codeUnitCompare sampleSeason = .ok sampleComputed ∧
    ((sampleComputed.standings.map (fun e => e.playerId)).Nodup ∧
      (∀ id, id ∈ sampleComputed.standings.map (fun e => e.playerId) ↔
        (id ∈ (sampleSeason.players.getD []).map (fun p => p.id) ∨
          ∃ wk ∈ sampleSeason.weeks.getD [], ∃ res ∈ wk.results.getD [], res.playerId = id)) ∧
      (∀ e ∈ sampleComputed.standings,
        e.points = seasonPointsOf e.playerId sampleComputed.weeks) ∧
      (∀ e ∈ sampleComputed.standings,
        (∀ wk ∈ sampleSeason.weeks.getD [], ∀ res ∈ wk.results.getD [],
          res.playerId ≠ e.playerId) → e.points = 0) ∧
      (∀ out2, computeSeason codeUnitCompare sampleSeason = .ok out2 →
        out2.standings = sampleComputed.standings)) :=
  ⟨by decide!, standings_totals codeUnitCompare sampleSeason sampleComputed (by decide!)⟩

theorem codeUnitCompare_consistent : ConsistentComparator codeUnitCompare := by
  constructor
  · intro a b
    unfold codeUnitCompare
    rcases lt_trichotomy a b with hlt | heq | hgt
    · left
      simp [hlt]
    · left
      subst heq
      simp
    · right
      simp [hgt]
  · intro a b c h1 h2
    have key : ∀ x y : String, codeUnitCompare x y ≤ 0 ↔ x ≤ y := by
      intro x y
      unfold codeUnitCompare
      rcases lt_trichotomy x y with hlt | heq | hgt
      · simp [hlt, le_of_lt hlt]
      · subst heq
        simp
      · have h1 : ¬ x < y := not_lt_of_gt hgt
        have h2 : ¬ x = y := ne_of_gt hgt
        have h3 : ¬ x ≤ y := not_le_of_gt hgt
        simp [h1, h2, h3]
    rw [key] at h1 h2 ⊢
    exact le_trans h1 h2

/-- C4: when `localeCompare` is a consistent comparator, the standings are in
descending order of points, two entries with equal points are in ascending
order of runner name under `localeCompare`, and the position of an entry is its
1-based index. -/
theorem standings_sorted (lc : String → String → ℤ) (hc : ConsistentComparator lc)
    (season : Season) (out : SeasonComputed) (h : computeSeason lc season = .ok out) :
    (∀ (i j : Nat) (hi : i < out.standings.length) (hj : j < out.standings.length), i < j →
        out.standings[j].points ≤ out.standings[i].points ∧
        (out.standings[i].points = out.standings[j].points →
          lc out.standings[i].runner out.standings[j].runner ≤ 0)) ∧
      (∀ (i : Nat) (hi : i < out.standings.length),
        out.standings[i].position = (i : ℤ) + 1) := by
  have hst := (computeSeason_ok lc season out h).2
  generalize out.standings = st at hst
  subst hst
  exact standingsOf_sorted lc hc _ _

/-- C4, witness: the sample season under the code-unit comparison. -/
theorem standings_sorted_witness :
    ConsistentComparator codeUnitCompare ∧
    computeSeason codeUnitCompare sampleSeason = .ok sampleComputed ∧
    ((∀ (i j : Nat) (hi : i < sampleComputed.standings.length)
        (hj : j < sampleComputed.standings.length), i < j →
        sampleComputed.standings[j].points ≤ sampleComputed.standings[i].points ∧
        (sampleComputed.standings[i].points = sampleComputed.standings[j].points →
          codeUnitCompare sampleComputed.standings[i].runner
            sampleComputed.standings[j].runner ≤ 0)) ∧
      (∀ (i : Nat) (hi : i < sampleComputed.standings.length),
        sampleComputed.standings[i].position = (i : ℤ) + 1)) :=
  ⟨codeUnitCompare_consistent, by decide!,
    standings_sorted codeUnitCompare codeUnitCompare_consistent sampleSeason sampleComputed
      (by decide!)⟩

end StandingsClaims
